import Mathlib

/-!
Verification of the Conversation Session Manager of the Skintel repository
(`src/hooks/use-chat.ts`), shallowly embedded in Lean 4.

The embedding follows the TypeScript source:
* React state updates (`setMessages`, `setConversationHistory`) are modelled as
  pure functions from the previous in-memory log to the next one.
* `localStorage` is modelled as an association list of string keys and values
  together with failure flags (`getItem`/`setItem`/`removeItem` may throw in a
  browser); a throwing call is an `Except.error`.
* JavaScript numbers appearing here are epoch milliseconds from `Date.now()`,
  modelled as `Nat` (the modelled clock range is 1970-01-01 to 9999-12-31,
  which covers every real `Date.now()` value).
* `Array.prototype.slice(-n)` is modelled by `jsSliceLast`, including the
  JavaScript quirk that `slice(-0)` is `slice(0)` and keeps the whole array.
-/

set_option maxHeartbeats 1600000

namespace Skintel

/-- `message.sender` in `use-chat.ts`: `'user' | 'bot'`. -/
inductive Sender where
  | user : Sender
  | bot : Sender
deriving DecidableEq, Repr

/-- `ChatMessage.role` from `services/api.ts`: `'user' | 'assistant'`. -/
inductive Role where
  | user : Role
  | assistant : Role
deriving DecidableEq, Repr

/-- One entry of the conversation-history log (`ChatMessage` in the source). -/
structure ChatMsg where
  role : Role
  content : String
deriving DecidableEq, Repr

/-- A displayed chat message (`Message` in `use-chat.ts`).
`timestamp` is epoch milliseconds (`Date` objects are identified with their
time value). -/
structure Message where
  id : String
  content : String
  sender : Sender
  timestamp : Nat
  isLoading : Option Bool
deriving DecidableEq, Repr

/-! ### Decimal printing: `Number.prototype.toString()` for naturals -/

/-- The decimal digit character for `d` (callers pass `d < 10`). -/
def digitChar (d : Nat) : Char :=
  match d with
  | 0 => '0'
  | 1 => '1'
  | 2 => '2'
  | 3 => '3'
  | 4 => '4'
  | 5 => '5'
  | 6 => '6'
  | 7 => '7'
  | 8 => '8'
  | 9 => '9'
  | _ => '0'

/-- Numeric value of a decimal digit character. -/
def digitVal (c : Char) : Nat := c.toNat - 48

/-- Big-endian decimal digits of `n`, with explicit fuel so that the
definition is structural and reduces on concrete input. -/
def natDigitsAux : Nat → Nat → List Char
  | 0, _ => []
  | fuel + 1, n =>
    if n < 10 then [digitChar n] else natDigitsAux fuel (n / 10) ++ [digitChar (n % 10)]

/-- Model of `n.toString()` for a JavaScript natural number `n`. -/
def natToString (n : Nat) : String := String.mk (natDigitsAux (n + 1) n)

/-- Decimal value of a digit string (used to recover `n` from `natToString n`). -/
def decimalVal (cs : List Char) : Nat := cs.foldl (fun a c => a * 10 + digitVal c) 0

theorem digitChar_isDigit (d : Nat) : (digitChar d).isDigit = true := by
  unfold digitChar
  split <;> decide

theorem digitVal_digitChar (d : Nat) (h : d < 10) : digitVal (digitChar d) = d := by
  interval_cases d <;> decide

theorem natDigitsAux_ne_nil (fuel n : Nat) : natDigitsAux (fuel + 1) n ≠ [] := by
  unfold natDigitsAux
  split
  · simp
  · simp

theorem natDigitsAux_digits (fuel n : Nat) :
    ∀ c ∈ natDigitsAux fuel n, c.isDigit = true := by
  induction fuel generalizing n with
  | zero => intro c hc; simp [natDigitsAux] at hc
  | succ fuel ih =>
    intro c hc
    unfold natDigitsAux at hc
    split at hc
    · simp at hc
      subst hc
      exact digitChar_isDigit n
    · simp at hc
      rcases hc with hc | hc
      · exact ih (n / 10) c hc
      · subst hc
        exact digitChar_isDigit (n % 10)

theorem decimalVal_append_digit (cs : List Char) (c : Char) :
    decimalVal (cs ++ [c]) = decimalVal cs * 10 + digitVal c := by
  simp [decimalVal]

theorem decimalVal_natDigitsAux (fuel n : Nat) (h : n < 10 ^ fuel) :
    decimalVal (natDigitsAux fuel n) = n := by
  induction fuel generalizing n with
  | zero =>
    have hn : n = 0 := by simpa using h
    subst hn
    rfl
  | succ fuel ih =>
    unfold natDigitsAux
    split
    · rename_i hn
      simp [decimalVal]
      rw [digitVal_digitChar n hn]
    · rename_i hn
      rw [decimalVal_append_digit]
      rw [ih (n / 10) (by
        have hpow : 10 ^ (fuel + 1) = 10 * 10 ^ fuel := by ring
        rw [hpow] at h
        exact Nat.div_lt_of_lt_mul h)]
      rw [digitVal_digitChar (n % 10) (Nat.mod_lt n (by omega))]
      omega

theorem decimalVal_natToString (n : Nat) : decimalVal (natToString n).data = n := by
  have h : n < 10 ^ (n + 1) := by
    calc n < n + 1 := by omega
    _ ≤ 10 ^ (n + 1) := Nat.lt_pow_self (by omega) (n + 1) |>.le
  exact decimalVal_natDigitsAux (n + 1) n h

theorem natToString_inj (m n : Nat) (h : natToString m = natToString n) : m = n := by
  have := decimalVal_natToString m
  rw [h, decimalVal_natToString n] at this
  omega

theorem natToString_head_digit (n : Nat) :
    ∃ c cs, (natToString n).data = c :: cs ∧ c.isDigit = true := by
  have hne := natDigitsAux_ne_nil n n
  have hd := natDigitsAux_digits (n + 1) n
  unfold natToString
  cases hcs : natDigitsAux (n + 1) n with
  | nil => exact absurd hcs hne
  | cons c cs =>
    refine ⟨c, cs, rfl, ?_⟩
    exact hd c (by rw [hcs]; simp)

/-! ### JavaScript array slicing -/

/-- Model of `a.slice(-n)` for a natural `n`: keeps the last `n` elements,
except that `slice(-0)` is `slice(0)` and keeps the whole array. -/
def jsSliceLast (l : List α) (n : Nat) : List α :=
  if n = 0 then l else l.drop (l.length - n)

/-! ### `addMessage` -/

/-- The generated message id:
`Date.now().toString() + Math.random().toString(36).substr(2, 9)`.
The random base-36 suffix is an environment input. -/
def mkId (now : Nat) (rand : String) : String := natToString now ++ rand

/-- The `newMessage` object constructed by `addMessage`. -/
def mkMessage (content : String) (sender : Sender) (isLoading : Option Bool)
    (now : Nat) (rand : String) : Message :=
  { id := mkId now rand, content := content, sender := sender,
    timestamp := now, isLoading := isLoading }

/-- The shared append-then-truncate pattern of both state updaters:
`updated = [...prev, ...add]; if (updated.length > cap) return updated.slice(-cap); return updated`. -/
def capStep (cap : Nat) (prev add : List α) : List α :=
  if (prev ++ add).length > cap then jsSliceLast (prev ++ add) cap else prev ++ add

/-- The `setMessages` updater of `addMessage`: append, then truncate to the
last `maxHistoryLength` entries when the cap is exceeded. -/
def addMessageStep (cap : Nat) (prev : List Message) (m : Message) : List Message :=
  capStep cap prev [m]

/-- `addMessage`: returns the created message together with the new log. -/
def addMessage (cap : Nat) (prev : List Message) (content : String) (sender : Sender)
    (isLoading : Option Bool) (now : Nat) (rand : String) : Message × List Message :=
  let m := mkMessage content sender isLoading now rand
  (m, addMessageStep cap prev m)

/-- Run a sequence of `addMessage` calls (already-constructed messages)
starting from an empty log. -/
def runAdds (cap : Nat) (msgs : List Message) : List Message :=
  msgs.foldl (addMessageStep cap) []

/-! ### `updateConversationHistory` -/

def mkUserEntry (u : String) : ChatMsg := { role := Role.user, content := u }

def mkAssistantEntry (a : String) : ChatMsg := { role := Role.assistant, content := a }

/-- The `setConversationHistory` updater: append the (user, assistant) pair,
then truncate to the last `maxExchanges * 2` entries when exceeded, where
`maxExchanges = Math.floor(maxHistoryLength / 2)`. -/
def updateConversationHistory (cap : Nat) (prev : List ChatMsg)
    (userMessage botResponse : String) : List ChatMsg :=
  capStep (cap / 2 * 2) prev [mkUserEntry userMessage, mkAssistantEntry botResponse]

/-- Run a sequence of `updateConversationHistory` calls from an empty log. -/
def runUpdates (cap : Nat) (ps : List (String × String)) : List ChatMsg :=
  ps.foldl (fun acc p => updateConversationHistory cap acc p.1 p.2) []

/-- Flatten a list of (user, assistant) content pairs into the entry list
they produce. -/
def toEntries : List (String × String) → List ChatMsg
  | [] => []
  | p :: rest => mkUserEntry p.1 :: mkAssistantEntry p.2 :: toEntries rest

theorem toEntries_append (l₁ l₂ : List (String × String)) :
    toEntries (l₁ ++ l₂) = toEntries l₁ ++ toEntries l₂ := by
  induction l₁ with
  | nil => rfl
  | cons p rest ih => simp [toEntries, ih]

theorem length_toEntries (l : List (String × String)) :
    (toEntries l).length = 2 * l.length := by
  induction l with
  | nil => rfl
  | cons p rest ih => simp [toEntries, ih]; omega

theorem drop_two_toEntries (l : List (String × String)) :
    (toEntries l).drop 2 = toEntries (l.drop 1) := by
  cases l with
  | nil => rfl
  | cons p rest => rfl

/-- `capStep` with cap 0: the truncation branch slices with `-0`, keeping
everything, so the step is a plain append. -/
theorem capStep_zero (l add : List α) (ha : add ≠ []) :
    capStep 0 l add = l ++ add := by
  unfold capStep
  have hlen : 0 < add.length := List.length_pos.mpr ha
  have hcond : (l ++ add).length > 0 := by
    rw [List.length_append]; omega
  rw [if_pos hcond]
  simp [jsSliceLast]

/-- `capStep` on a state that is already a last-`cap` slice produces the
last-`cap` slice of the extended sequence (for positive caps at least as
large as the appended block). -/
theorem capStep_slice (cap : Nat) (l add : List α) (ha : 1 ≤ add.length)
    (hcap : add.length ≤ cap) :
    capStep cap (jsSliceLast l cap) add = jsSliceLast (l ++ add) cap := by
  have hc0 : ¬ (cap = 0) := by omega
  simp only [jsSliceLast, if_neg hc0]
  by_cases hsmall : l.length + add.length ≤ cap
  · have h1 : l.length - cap = 0 := by omega
    rw [h1, List.drop_zero]
    unfold capStep
    have hcond : ¬ ((l ++ add).length > cap) := by
      rw [List.length_append]; omega
    rw [if_neg hcond]
    have h2 : (l ++ add).length - cap = 0 := by rw [List.length_append]; omega
    rw [h2, List.drop_zero]
  · unfold capStep
    have hcond : (l.drop (l.length - cap) ++ add).length > cap := by
      rw [List.length_append, List.length_drop]; omega
    rw [if_pos hcond]
    simp only [jsSliceLast, if_neg hc0]
    rw [List.length_append, List.length_drop]
    have hle : l.length - (l.length - cap) + add.length - cap ≤
        (l.drop (l.length - cap)).length := by
      rw [List.length_drop]; omega
    rw [List.drop_append_of_le_length hle, List.drop_drop]
    have hle2 : (l ++ add).length - cap ≤ l.length := by
      rw [List.length_append]; omega
    rw [List.drop_append_of_le_length hle2]
    have harith : l.length - cap + (l.length - (l.length - cap) + add.length - cap) =
        (l ++ add).length - cap := by
      rw [List.length_append]; omega
    rw [harith]

/-- Master lemma for the message log: running any `addMessage` sequence from
empty keeps the whole sequence when `cap = 0` (the `slice(-0)` quirk) and the
last `cap` messages otherwise. -/
theorem runAdds_eq (cap : Nat) (msgs : List Message) :
    runAdds cap msgs = jsSliceLast msgs cap := by
  induction msgs using List.reverseRecOn with
  | nil => simp [runAdds, jsSliceLast]
  | append_singleton msgs m ih =>
    have hstep : runAdds cap (msgs ++ [m]) = addMessageStep cap (runAdds cap msgs) m := by
      simp [runAdds]
    rw [hstep, ih, addMessageStep]
    by_cases hc : cap = 0
    · subst hc
      rw [capStep_zero _ _ (by simp)]
      simp [jsSliceLast]
    · exact capStep_slice cap msgs [m] (by simp) (by simp; omega)

/-- Master lemma for the exchange log, at the level of entries: the run is
the last `(cap / 2) * 2` entries of the full flattened pair sequence (with
the `slice(-0)` quirk when `cap / 2 = 0`). -/
theorem runUpdates_eq_entries (cap : Nat) (ps : List (String × String)) :
    runUpdates cap ps = jsSliceLast (toEntries ps) (cap / 2 * 2) := by
  induction ps using List.reverseRecOn with
  | nil => simp [runUpdates, jsSliceLast, toEntries]
  | append_singleton ps p ih =>
    have hstep : runUpdates cap (ps ++ [p]) =
        updateConversationHistory cap (runUpdates cap ps) p.1 p.2 := by
      simp [runUpdates]
    rw [hstep, ih, updateConversationHistory]
    have htwo : toEntries (ps ++ [p]) =
        toEntries ps ++ [mkUserEntry p.1, mkAssistantEntry p.2] := by
      rw [toEntries_append]; rfl
    rw [htwo]
    by_cases hm : cap / 2 = 0
    · rw [hm]
      simp only [Nat.zero_mul]
      rw [capStep_zero _ _ (by simp)]
      simp [jsSliceLast]
    · exact capStep_slice _ _ _ (by simp) (by simp; omega)

/-- Dropping `2 j` entries of a flattened pair list drops `j` whole pairs. -/
theorem toEntries_drop (ps : List (String × String)) (j : Nat) :
    (toEntries ps).drop (2 * j) = toEntries (ps.drop j) := by
  induction ps generalizing j with
  | nil => simp [toEntries]
  | cons p rest ih =>
    cases j with
    | zero => simp
    | succ j' =>
      have h2 : 2 * (j' + 1) = 2 * j' + 1 + 1 := by omega
      rw [h2]
      show (toEntries (p :: rest)).drop (2 * j' + 1 + 1) = toEntries (rest.drop j')
      have : toEntries (p :: rest) = mkUserEntry p.1 :: mkAssistantEntry p.2 :: toEntries rest := rfl
      rw [this]
      simp only [List.drop_succ_cons]
      exact ih j'

/-- Taking the last `m * 2` entries of a flattened pair list keeps the last
`m` whole pairs (including the `-0` quirk uniformly on both sides). -/
theorem jsSliceLast_toEntries (ps : List (String × String)) (m : Nat) :
    jsSliceLast (toEntries ps) (m * 2) = toEntries (jsSliceLast ps m) := by
  by_cases hm : m = 0
  · subst hm
    simp [jsSliceLast]
  · have hm2 : ¬ (m * 2 = 0) := by omega
    simp only [jsSliceLast, if_neg hm, if_neg hm2]
    rw [length_toEntries]
    have harith : 2 * ps.length - m * 2 = 2 * (ps.length - m) := by omega
    rw [harith]
    exact toEntries_drop ps (ps.length - m)

/-- Master lemma for the exchange log: running any call sequence from empty
produces exactly the flattening of the kept pairs, where the kept pairs are
the whole sequence when `cap / 2 = 0` (the `slice(-0)` quirk) and the last
`cap / 2` pairs otherwise. -/
theorem runUpdates_eq (cap : Nat) (ps : List (String × String)) :
    runUpdates cap ps = toEntries (jsSliceLast ps (cap / 2)) := by
  rw [runUpdates_eq_entries, jsSliceLast_toEntries]

/-- Role at each index of a flattened pair list: even indices are user
entries, odd indices assistant entries. -/
theorem toEntries_role (ps : List (String × String)) :
    ∀ i, i < 2 * ps.length →
      (toEntries ps)[i]?.map (fun e => e.role) =
        some (if i % 2 = 0 then Role.user else Role.assistant) := by
  induction ps with
  | nil => intro i hi; simp at hi
  | cons p rest ih =>
    intro i hi
    match i with
    | 0 => simp [toEntries, mkUserEntry]
    | 1 => simp [toEntries, mkAssistantEntry]
    | Nat.succ (Nat.succ j) =>
      have hj : j < 2 * rest.length := by simp at hi; omega
      have : (toEntries (p :: rest))[j + 2]? = (toEntries rest)[j]? := by
        simp [toEntries]
      rw [this]
      have hmod : (j + 2) % 2 = j % 2 := by omega
      rw [hmod]
      exact ih j hj

/-! ### Fixed message texts and seeded messages -/

/-- The initial welcome text seeded by the `useState` initializer. -/
def welcomeText : String :=
  "Hi! I'm your AI-powered skincare consultant. I can help you with skincare routines, product recommendations, ingredient questions, and skin concerns. What would you like to know about skincare today?"

/-- The text of the message seeded by `clearChat`. -/
def clearedText : String := "Chat cleared! How can I help you with your skincare today?"

/-- The seeded welcome message (`id: "initial"`). -/
def welcomeMessage (now : Nat) : Message :=
  { id := "initial", content := welcomeText, sender := Sender.bot,
    timestamp := now, isLoading := none }

/-- The message seeded by `clearChat` (`id: "initial-" + Date.now()`). -/
def clearedMessage (now : Nat) : Message :=
  { id := "initial-" ++ natToString now, content := clearedText, sender := Sender.bot,
    timestamp := now, isLoading := none }

/-! ### Persistence layer (`localStorage`) -/

/-- The browser key-value storage: an association list of entries plus flags
saying whether each operation throws (storage disabled, quota exceeded). -/
structure Store where
  items : List (String × String)
  getFails : Bool
  setFails : Bool
  removeFails : Bool
deriving Repr

def lookupItems (items : List (String × String)) (k : String) : Option String :=
  match items with
  | [] => none
  | (k', v) :: rest => if k' = k then some v else lookupItems rest k

def removeItems (items : List (String × String)) (k : String) : List (String × String) :=
  match items with
  | [] => []
  | (k', v) :: rest => if k' = k then removeItems rest k else (k', v) :: removeItems rest k

def Store.getItem (s : Store) (k : String) : Except Unit (Option String) :=
  if s.getFails then Except.error () else Except.ok (lookupItems s.items k)

def Store.setItem (s : Store) (k v : String) : Except Unit Store :=
  if s.setFails then Except.error ()
  else Except.ok { s with items := (k, v) :: removeItems s.items k }

def Store.removeItem (s : Store) (k : String) : Except Unit Store :=
  if s.removeFails then Except.error ()
  else Except.ok { s with items := removeItems s.items k }

/-- `true` iff the call threw. -/
def exceptIsError : Except Unit α → Bool
  | Except.error _ => true
  | Except.ok _ => false

/-- `clearChat`: the two state setters run first (they never throw), then the
two `localStorage.removeItem` calls run outside any try/catch, so a
`removeItem` exception propagates to the caller; the second removal runs only
if the first did not throw. -/
def clearChat (storageKey : String) (now : Nat) (store : Store) :
    (List Message × List ChatMsg) × Except Unit Store :=
  let st := ([clearedMessage now], ([] : List ChatMsg))
  match store.removeItem (storageKey ++ "-messages") with
  | Except.error e => (st, Except.error e)
  | Except.ok s1 =>
    match s1.removeItem (storageKey ++ "-conversation") with
    | Except.error e => (st, Except.error e)
    | Except.ok s2 => (st, Except.ok s2)

/-! ### Identifier facts -/

theorem mkId_ne_initial (now : Nat) (rand : String) : mkId now rand ≠ "initial" := by
  intro h
  obtain ⟨c, cs, hdata, hdig⟩ := natToString_head_digit now
  have hd : ("initial" : String).data = (natToString now).data ++ rand.data := by
    rw [← h]
    exact String.data_append _ _
  rw [hdata] at hd
  have hi : ('i' : Char) = c := by
    have hh := congrArg (fun l => l.head?) hd
    simpa using hh
  rw [← hi] at hdig
  exact absurd hdig (by decide)

theorem clearedId_ne_initial (now : Nat) :
    ("initial-" ++ natToString now : String) ≠ "initial" := by
  intro h
  obtain ⟨c, cs, hdata, _⟩ := natToString_head_digit now
  have hd : ("initial" : String).data = ("initial-" : String).data ++ (natToString now).data := by
    rw [← h]
    exact String.data_append _ _
  rw [hdata] at hd
  have hlen := congrArg List.length hd
  simp at hlen

theorem clearedId_ne_mkId (now now' : Nat) (rand : String) :
    ("initial-" ++ natToString now : String) ≠ mkId now' rand := by
  intro h
  obtain ⟨c, cs, hdata, hdig⟩ := natToString_head_digit now'
  have hd : ("initial-" : String).data ++ (natToString now).data =
      (natToString now').data ++ rand.data := by
    rw [← String.data_append, ← String.data_append, h]
    rfl
  rw [hdata] at hd
  have hi : ('i' : Char) = c := by
    have hh := congrArg (fun l => l.head?) hd
    simpa using hh
  rw [← hi] at hdig
  exact absurd hdig (by decide)

/-- Two `clearChat`-seeded ids agree exactly when the clock values agree. -/
theorem clearedId_inj (now now' : Nat)
    (h : ("initial-" ++ natToString now : String) = "initial-" ++ natToString now') :
    now = now' := by
  have hd := congrArg String.data h
  rw [String.data_append, String.data_append] at hd
  have htail : (natToString now).data = (natToString now').data :=
    List.append_cancel_left hd
  have := decimalVal_natToString now
  rw [htail, decimalVal_natToString now'] at this
  omega

/-- The new message lands at the end of the log produced by `addMessage`
(for any positive cap). -/
theorem capStep_getLast (cap : Nat) (hcap : 1 ≤ cap) (prev : List Message) (m : Message) :
    (capStep cap prev [m]).getLast? = some m := by
  unfold capStep
  split
  · rename_i hcond
    have hc0 : ¬ (cap = 0) := by omega
    simp only [jsSliceLast, if_neg hc0]
    have hle : (prev ++ [m]).length - cap ≤ prev.length := by
      rw [List.length_append]
      simp
      omega
    rw [List.drop_append_of_le_length hle]
    exact List.getLast?_concat _
  · exact List.getLast?_concat _

/-! ### JSON

A model of the platform's `JSON.stringify` / `JSON.parse` pair on the
fragment this component exchanges with storage: values are trees of null,
booleans, strings, arrays and objects; numeric literals are carried as
lexemes (this component never writes numbers and never interprets a numeric
value except through `new Date`). The printer is compact (as
`JSON.stringify` is) and the parser accepts surrounding whitespace and the
standard string escapes. Exotic surfaces no claim touches (exponent-form
numeric values, `\uXXXX` beyond the Lean character range) are outside the
modelled fragment.
-/

mutual
inductive Json where
  | null : Json
  | bool (b : Bool) : Json
  | num (lex : String) : Json
  | str (s : String) : Json
  | arr (items : JArr) : Json
  | obj (fields : JObj) : Json
deriving DecidableEq, Repr

inductive JArr where
  | nil : JArr
  | cons (hd : Json) (tl : JArr) : JArr
deriving DecidableEq, Repr

inductive JObj where
  | nil : JObj
  | cons (key : String) (val : Json) (tl : JObj) : JObj
deriving DecidableEq, Repr
end

def quoteC : Char := '"'
def backslashC : Char := '\\'
def lbraceC : Char := '\x7b'
def rbraceC : Char := '\x7d'

/-- Lower-case hex digit character for `d < 16`. -/
def hexChar (d : Nat) : Char :=
  match d with
  | 0 => '0'
  | 1 => '1'
  | 2 => '2'
  | 3 => '3'
  | 4 => '4'
  | 5 => '5'
  | 6 => '6'
  | 7 => '7'
  | 8 => '8'
  | 9 => '9'
  | 10 => 'a'
  | 11 => 'b'
  | 12 => 'c'
  | 13 => 'd'
  | 14 => 'e'
  | 15 => 'f'
  | _ => '0'

/-- `JSON.stringify` escaping of one string character. -/
def escChar (c : Char) : List Char :=
  if c = quoteC then [backslashC, quoteC]
  else if c = backslashC then [backslashC, backslashC]
  else if c = '\n' then [backslashC, 'n']
  else if c = '\r' then [backslashC, 'r']
  else if c = '\t' then [backslashC, 't']
  else if c = '\x08' then [backslashC, 'b']
  else if c = '\x0c' then [backslashC, 'f']
  else if c.toNat < 32 then
    [backslashC, 'u', '0', '0', hexChar (c.toNat / 16), hexChar (c.toNat % 16)]
  else [c]

def escList : List Char → List Char
  | [] => []
  | c :: cs => escChar c ++ escList cs

/-- A JSON string literal, quotes included. -/
def printStrChars (s : String) : List Char := quoteC :: (escList s.data ++ [quoteC])

mutual
def printJson : Json → List Char
  | Json.null => ['n', 'u', 'l', 'l']
  | Json.bool true => ['t', 'r', 'u', 'e']
  | Json.bool false => ['f', 'a', 'l', 's', 'e']
  | Json.num lex => lex.data
  | Json.str s => printStrChars s
  | Json.arr items => '[' :: (printJArr items ++ [']'])
  | Json.obj fields => lbraceC :: (printJObj fields ++ [rbraceC])

def printJArr : JArr → List Char
  | JArr.nil => []
  | JArr.cons hd JArr.nil => printJson hd
  | JArr.cons hd (JArr.cons x tl) => printJson hd ++ ',' :: printJArr (JArr.cons x tl)

def printJObj : JObj → List Char
  | JObj.nil => []
  | JObj.cons k v JObj.nil => printStrChars k ++ ':' :: printJson v
  | JObj.cons k v (JObj.cons k2 v2 tl) =>
    printStrChars k ++ ':' :: printJson v ++ ',' :: printJObj (JObj.cons k2 v2 tl)
end

/-- `JSON.stringify`. -/
def printJsonStr (j : Json) : String := String.mk (printJson j)

/-- The comma-prefixed continuation form of an array body. -/
def printTailArr : JArr → List Char
  | JArr.nil => []
  | JArr.cons hd tl => ',' :: printJson hd ++ printTailArr tl

/-- The comma-prefixed continuation form of an object body. -/
def printTailObj : JObj → List Char
  | JObj.nil => []
  | JObj.cons k v tl => ',' :: printStrChars k ++ ':' :: printJson v ++ printTailObj tl

-- Serializable values: everything this component writes (no numeric
-- literals, which are carried as raw lexemes by the parser only).
mutual
def jsonWF : Json → Bool
  | Json.null => true
  | Json.bool _ => true
  | Json.num _ => false
  | Json.str _ => true
  | Json.arr items => jarrWF items
  | Json.obj fields => jobjWF fields

def jarrWF : JArr → Bool
  | JArr.nil => true
  | JArr.cons hd tl => jsonWF hd && jarrWF tl

def jobjWF : JObj → Bool
  | JObj.nil => true
  | JObj.cons _ v tl => jsonWF v && jobjWF tl
end

-- Fuel needed by the parser on printed output.
mutual
def jsonFuel : Json → Nat
  | Json.null => 1
  | Json.bool _ => 1
  | Json.num _ => 1
  | Json.str _ => 1
  | Json.arr items => 2 + jarrFuel items
  | Json.obj fields => 2 + jobjFuel fields

def jarrFuel : JArr → Nat
  | JArr.nil => 0
  | JArr.cons hd tl => jsonFuel hd + 1 + jarrFuel tl

def jobjFuel : JObj → Nat
  | JObj.nil => 0
  | JObj.cons _ v tl => jsonFuel v + 2 + jobjFuel tl
end

def isWsChar (c : Char) : Bool := c == ' ' || c == '\t' || c == '\n' || c == '\r'

def skipWs : List Char → List Char
  | [] => []
  | c :: cs => if isWsChar c then skipWs cs else c :: cs

def hexVal (c : Char) : Option Nat :=
  if c.isDigit then some (c.toNat - 48)
  else if 97 ≤ c.toNat ∧ c.toNat ≤ 102 then some (c.toNat - 87)
  else if 65 ≤ c.toNat ∧ c.toNat ≤ 70 then some (c.toNat - 55)
  else none

/-- Named single-character escapes of JSON string literals. -/
def escCode (e : Char) : Option Char :=
  if e = quoteC then some quoteC
  else if e = backslashC then some backslashC
  else if e = '/' then some '/'
  else if e = 'n' then some '\n'
  else if e = 'r' then some '\r'
  else if e = 't' then some '\t'
  else if e = 'b' then some '\x08'
  else if e = 'f' then some '\x0c'
  else none

def consFst (c : Char) : Option (List Char × List Char) → Option (List Char × List Char)
  | none => none
  | some (cs, rest) => some (c :: cs, rest)

/-- Parse the body of a JSON string literal (after the opening quote), up to
and including the closing quote; rejects raw control characters, as
`JSON.parse` does. -/
def parseStrBody : List Char → Option (List Char × List Char)
  | [] => none
  | c :: rest =>
    if c = quoteC then some ([], rest)
    else if c = backslashC then
      match rest with
      | [] => none
      | 'u' :: h1 :: h2 :: h3 :: h4 :: r2 =>
        match hexVal h1, hexVal h2, hexVal h3, hexVal h4 with
        | some a, some b, some c2, some d =>
          consFst (Char.ofNat (4096 * a + 256 * b + 16 * c2 + d)) (parseStrBody r2)
        | _, _, _, _ => none
      | e :: r =>
        match escCode e with
        | some ce => consFst ce (parseStrBody r)
        | none => none
    else if c.toNat < 32 then none
    else consFst c (parseStrBody rest)

def isNumChar (c : Char) : Bool :=
  c.isDigit || c == '.' || c == 'e' || c == 'E' || c == '+' || c == '-'

def isNumStart (c : Char) : Bool := c.isDigit || c == '-'

/-- Wrap a parsed string body as a JSON string value. -/
def jsonStrOf : Option (List Char × List Char) → Option (Json × List Char)
  | some (content, r) => some (Json.str (String.mk content), r)
  | none => none

def parseNullKw : List Char → Option (Json × List Char)
  | 'u' :: 'l' :: 'l' :: r => some (Json.null, r)
  | _ => none

def parseTrueKw : List Char → Option (Json × List Char)
  | 'r' :: 'u' :: 'e' :: r => some (Json.bool true, r)
  | _ => none

def parseFalseKw : List Char → Option (Json × List Char)
  | 'a' :: 'l' :: 's' :: 'e' :: r => some (Json.bool false, r)
  | _ => none

/-- Lex a numeric literal (first character already seen). -/
def jsonNumOf (c : Char) (rest : List Char) : Json × List Char :=
  (Json.num (String.mk (c :: rest.takeWhile isNumChar)), rest.dropWhile isNumChar)

mutual
def parseVal : Nat → List Char → Option (Json × List Char)
  | 0, _ => none
  | fuel + 1, cs =>
    match skipWs cs with
    | [] => none
    | c :: rest =>
      if c = quoteC then jsonStrOf (parseStrBody rest)
      else if c = '[' then parseArrItems fuel rest
      else if c = lbraceC then parseObjItems fuel rest
      else if c = 'n' then parseNullKw rest
      else if c = 't' then parseTrueKw rest
      else if c = 'f' then parseFalseKw rest
      else if isNumStart c then some (jsonNumOf c rest)
      else none

def parseArrItems : Nat → List Char → Option (Json × List Char)
  | 0, _ => none
  | fuel + 1, cs =>
    match skipWs cs with
    | [] => none
    | c :: r =>
      if c = ']' then some (Json.arr JArr.nil, r)
      else
        (parseVal fuel (c :: r)).bind (fun jr =>
          (parseArrTail fuel jr.2).map (fun tr => (Json.arr (JArr.cons jr.1 tr.1), tr.2)))

def parseArrTail : Nat → List Char → Option (JArr × List Char)
  | 0, _ => none
  | fuel + 1, cs =>
    match skipWs cs with
    | [] => none
    | c :: r =>
      if c = ']' then some (JArr.nil, r)
      else if c = ',' then
        (parseVal fuel r).bind (fun jr =>
          (parseArrTail fuel jr.2).map (fun tr => (JArr.cons jr.1 tr.1, tr.2)))
      else none

def parseObjItems : Nat → List Char → Option (Json × List Char)
  | 0, _ => none
  | fuel + 1, cs =>
    match skipWs cs with
    | [] => none
    | c :: r =>
      if c = rbraceC then some (Json.obj JObj.nil, r)
      else if c = quoteC then
        (parseStrBody r).bind (fun kr =>
          (parseColonVal fuel kr.2).bind (fun vr =>
            (parseObjTail fuel vr.2).map (fun tr =>
              (Json.obj (JObj.cons (String.mk kr.1) vr.1 tr.1), tr.2))))
      else none

def parseColonVal : Nat → List Char → Option (Json × List Char)
  | 0, _ => none
  | fuel + 1, cs =>
    match skipWs cs with
    | ':' :: r => parseVal fuel r
    | _ => none

def parseObjTail : Nat → List Char → Option (JObj × List Char)
  | 0, _ => none
  | fuel + 1, cs =>
    match skipWs cs with
    | [] => none
    | c :: r =>
      if c = rbraceC then some (JObj.nil, r)
      else if c = ',' then
        match skipWs r with
        | [] => none
        | c2 :: r2 =>
          if c2 = quoteC then
            (parseStrBody r2).bind (fun kr =>
              (parseColonVal fuel kr.2).bind (fun vr =>
                (parseObjTail fuel vr.2).map (fun tr =>
                  (JObj.cons (String.mk kr.1) vr.1 tr.1, tr.2))))
          else none
      else none
end

/-- `JSON.parse`: `none` models a thrown `SyntaxError`. -/
def parseJson (s : String) : Option Json :=
  match parseVal (2 * s.data.length + 4) s.data with
  | some (j, rest) =>
    match skipWs rest with
    | [] => some j
    | _ => none
  | none => none

/-! ### Printer–parser round trip -/

theorem string_mk_data (s : String) : String.mk s.data = s := by
  cases s
  rfl

theorem skipWs_not_ws (c : Char) (l : List Char) (h : isWsChar c = false) :
    skipWs (c :: l) = c :: l := by
  simp [skipWs, h]

theorem hexVal_hexChar (d : Nat) (h : d < 16) : hexVal (hexChar d) = some d := by
  interval_cases d <;> decide

/-! Step lemmas for `parseStrBody`. -/

theorem psb_quote (rest : List Char) : parseStrBody (quoteC :: rest) = some ([], rest) := by
  rw [parseStrBody.eq_def]
  simp

theorem psb_plain (c : Char) (rest : List Char) (h1 : ¬ (c = quoteC)) (h2 : ¬ (c = backslashC))
    (h3 : ¬ (c.toNat < 32)) : parseStrBody (c :: rest) = consFst c (parseStrBody rest) := by
  rw [parseStrBody.eq_def]
  simp only [if_neg h1, if_neg h2, if_neg h3]

theorem psb_escQ (rest : List Char) :
    parseStrBody (backslashC :: quoteC :: rest) = consFst quoteC (parseStrBody rest) := by
  rw [parseStrBody.eq_def]
  simp [escCode, quoteC, backslashC]

theorem psb_escB (rest : List Char) :
    parseStrBody (backslashC :: backslashC :: rest) = consFst backslashC (parseStrBody rest) := by
  rw [parseStrBody.eq_def]
  simp [escCode, quoteC, backslashC]

theorem psb_escN (rest : List Char) :
    parseStrBody (backslashC :: 'n' :: rest) = consFst '\n' (parseStrBody rest) := by
  rw [parseStrBody.eq_def]
  simp [escCode, quoteC, backslashC]

theorem psb_escR (rest : List Char) :
    parseStrBody (backslashC :: 'r' :: rest) = consFst '\r' (parseStrBody rest) := by
  rw [parseStrBody.eq_def]
  simp [escCode, quoteC, backslashC]

theorem psb_escT (rest : List Char) :
    parseStrBody (backslashC :: 't' :: rest) = consFst '\t' (parseStrBody rest) := by
  rw [parseStrBody.eq_def]
  simp [escCode, quoteC, backslashC]

theorem psb_escBsp (rest : List Char) :
    parseStrBody (backslashC :: 'b' :: rest) = consFst '\x08' (parseStrBody rest) := by
  rw [parseStrBody.eq_def]
  simp [escCode, quoteC, backslashC]

theorem psb_escFf (rest : List Char) :
    parseStrBody (backslashC :: 'f' :: rest) = consFst '\x0c' (parseStrBody rest) := by
  rw [parseStrBody.eq_def]
  simp [escCode, quoteC, backslashC]

theorem psb_escU (h1 h2 h3 h4 : Char) (rest : List Char) :
    parseStrBody (backslashC :: 'u' :: h1 :: h2 :: h3 :: h4 :: rest) =
      (match hexVal h1, hexVal h2, hexVal h3, hexVal h4 with
       | some a, some b, some c2, some d =>
         consFst (Char.ofNat (4096 * a + 256 * b + 16 * c2 + d)) (parseStrBody rest)
       | _, _, _, _ => none) := by
  rw [parseStrBody.eq_def]
  simp [quoteC, backslashC]

/-- Unescaping inverts escaping: parsing a string body consisting of the
escaped characters followed by the closing quote recovers the characters. -/
theorem parseStrBody_esc (cs : List Char) :
    ∀ rest, parseStrBody (escList cs ++ (quoteC :: rest)) = some (cs, rest) := by
  induction cs with
  | nil =>
    intro rest
    show parseStrBody (([] : List Char) ++ (quoteC :: rest)) = some ([], rest)
    rw [List.nil_append]
    exact psb_quote rest
  | cons c cs ih =>
    intro rest
    show parseStrBody ((escChar c ++ escList cs) ++ (quoteC :: rest)) = some (c :: cs, rest)
    rw [List.append_assoc]
    by_cases h1 : c = quoteC
    · subst h1
      rw [show escChar quoteC = [backslashC, quoteC] from rfl]
      simp only [List.cons_append, List.nil_append]
      rw [psb_escQ, ih rest]
      rfl
    · by_cases h2 : c = backslashC
      · subst h2
        rw [show escChar backslashC = [backslashC, backslashC] from rfl]
        simp only [List.cons_append, List.nil_append]
        rw [psb_escB, ih rest]
        rfl
      · by_cases h3 : c = '\n'
        · subst h3
          rw [show escChar '\n' = [backslashC, 'n'] from rfl]
          simp only [List.cons_append, List.nil_append]
          rw [psb_escN, ih rest]
          rfl
        · by_cases h4 : c = '\r'
          · subst h4
            rw [show escChar '\r' = [backslashC, 'r'] from rfl]
            simp only [List.cons_append, List.nil_append]
            rw [psb_escR, ih rest]
            rfl
          · by_cases h5 : c = '\t'
            · subst h5
              rw [show escChar '\t' = [backslashC, 't'] from rfl]
              simp only [List.cons_append, List.nil_append]
              rw [psb_escT, ih rest]
              rfl
            · by_cases h6 : c = '\x08'
              · subst h6
                rw [show escChar '\x08' = [backslashC, 'b'] from rfl]
                simp only [List.cons_append, List.nil_append]
                rw [psb_escBsp, ih rest]
                rfl
              · by_cases h7 : c = '\x0c'
                · subst h7
                  rw [show escChar '\x0c' = [backslashC, 'f'] from rfl]
                  simp only [List.cons_append, List.nil_append]
                  rw [psb_escFf, ih rest]
                  rfl
                · by_cases h8 : c.toNat < 32
                  · have he : escChar c = [backslashC, 'u', '0', '0',
                        hexChar (c.toNat / 16), hexChar (c.toNat % 16)] := by
                      unfold escChar
                      rw [if_neg h1, if_neg h2, if_neg h3, if_neg h4, if_neg h5,
                        if_neg h6, if_neg h7, if_pos h8]
                    rw [he]
                    simp only [List.cons_append, List.nil_append]
                    rw [psb_escU]
                    simp only [show hexVal '0' = some 0 from by decide,
                      hexVal_hexChar (c.toNat / 16) (by omega),
                      hexVal_hexChar (c.toNat % 16) (by omega)]
                    show consFst (Char.ofNat (4096 * 0 + 256 * 0 + 16 * (c.toNat / 16) + c.toNat % 16))
                        (parseStrBody (escList cs ++ (quoteC :: rest))) = _
                    have harg : 4096 * 0 + 256 * 0 + 16 * (c.toNat / 16) + c.toNat % 16 = c.toNat := by
                      omega
                    rw [harg, Char.ofNat_toNat, ih rest]
                    rfl
                  · have he : escChar c = [c] := by
                      unfold escChar
                      rw [if_neg h1, if_neg h2, if_neg h3, if_neg h4, if_neg h5,
                        if_neg h6, if_neg h7, if_neg h8]
                    rw [he]
                    simp only [List.cons_append, List.nil_append]
                    rw [psb_plain c _ h1 h2 h8, ih rest]
                    rfl

/-- Every serializable JSON value prints with a non-whitespace head character
that is not a closing token. -/
theorem printJson_head (j : Json) (h : jsonWF j = true) :
    ∃ c l, printJson j = c :: l ∧
      (c = 'n' ∨ c = 't' ∨ c = 'f' ∨ c = quoteC ∨ c = '[' ∨ c = lbraceC) := by
  cases j with
  | null => exact ⟨'n', ['u', 'l', 'l'], rfl, Or.inl rfl⟩
  | bool b =>
    cases b with
    | false => exact ⟨'f', ['a', 'l', 's', 'e'], rfl, Or.inr (Or.inr (Or.inl rfl))⟩
    | true => exact ⟨'t', ['r', 'u', 'e'], rfl, Or.inr (Or.inl rfl)⟩
  | num lex => simp [jsonWF] at h
  | str s =>
    exact ⟨quoteC, escList s.data ++ [quoteC], rfl, Or.inr (Or.inr (Or.inr (Or.inl rfl)))⟩
  | arr items =>
    exact ⟨'[', printJArr items ++ [']'], rfl, Or.inr (Or.inr (Or.inr (Or.inr (Or.inl rfl))))⟩
  | obj fields =>
    exact ⟨lbraceC, printJObj fields ++ [rbraceC], rfl,
      Or.inr (Or.inr (Or.inr (Or.inr (Or.inr rfl))))⟩

theorem printJArr_eq : ∀ (hd : Json) (tl : JArr),
    printJArr (JArr.cons hd tl) = printJson hd ++ printTailArr tl
  | hd, JArr.nil => by simp [printJArr, printTailArr]
  | hd, JArr.cons x tl2 => by
    show printJson hd ++ ',' :: printJArr (JArr.cons x tl2) = _
    rw [printJArr_eq x tl2]
    simp [printTailArr]

theorem printJObj_eq : ∀ (k : String) (v : Json) (tl : JObj),
    printJObj (JObj.cons k v tl) = printStrChars k ++ ':' :: printJson v ++ printTailObj tl
  | k, v, JObj.nil => by simp [printJObj, printTailObj]
  | k, v, JObj.cons k2 v2 tl2 => by
    show printStrChars k ++ ':' :: printJson v ++ ',' :: printJObj (JObj.cons k2 v2 tl2) = _
    rw [printJObj_eq k2 v2 tl2]
    simp [printTailObj]

theorem jsonFuel_pos (j : Json) : 1 ≤ jsonFuel j := by
  cases j <;> simp [jsonFuel] <;> omega

/-! Step lemmas for the value parser (heads are concrete tokens). -/

theorem parseVal_quote (f : Nat) (T : List Char) :
    parseVal (f + 1) (quoteC :: T) = jsonStrOf (parseStrBody T) := rfl

theorem parseVal_bracket (f : Nat) (T : List Char) :
    parseVal (f + 1) ('[' :: T) = parseArrItems f T := rfl

theorem parseVal_brace (f : Nat) (T : List Char) :
    parseVal (f + 1) (lbraceC :: T) = parseObjItems f T := rfl

theorem parseArrItems_close (f : Nat) (T : List Char) :
    parseArrItems (f + 1) (']' :: T) = some (Json.arr JArr.nil, T) := rfl

theorem parseArrItems_step (f : Nat) (c : Char) (r : List Char)
    (hws : isWsChar c = false) (hnb : ¬ (c = ']')) :
    parseArrItems (f + 1) (c :: r) =
      (parseVal f (c :: r)).bind (fun jr =>
        (parseArrTail f jr.2).map (fun tr => (Json.arr (JArr.cons jr.1 tr.1), tr.2))) := by
  simp only [parseArrItems]
  rw [skipWs_not_ws c r hws]
  split
  · rename_i heq
    exact absurd heq (by simp)
  · rename_i c2 r2 heq
    injection heq with hc hr
    subst hc
    subst hr
    rw [if_neg hnb]

theorem parseArrTail_close (f : Nat) (T : List Char) :
    parseArrTail (f + 1) (']' :: T) = some (JArr.nil, T) := rfl

theorem parseArrTail_comma (f : Nat) (T : List Char) :
    parseArrTail (f + 1) (',' :: T) = (parseVal f T).bind (fun jr =>
      (parseArrTail f jr.2).map (fun tr => (JArr.cons jr.1 tr.1, tr.2))) := rfl

theorem parseColonVal_colon (f : Nat) (T : List Char) :
    parseColonVal (f + 1) (':' :: T) = parseVal f T := rfl

theorem parseObjItems_close (f : Nat) (T : List Char) :
    parseObjItems (f + 1) (rbraceC :: T) = some (Json.obj JObj.nil, T) := rfl

theorem parseObjItems_quote (f : Nat) (T : List Char) :
    parseObjItems (f + 1) (quoteC :: T) =
      (parseStrBody T).bind (fun kr =>
        (parseColonVal f kr.2).bind (fun vr =>
          (parseObjTail f vr.2).map (fun tr =>
            (Json.obj (JObj.cons (String.mk kr.1) vr.1 tr.1), tr.2)))) := rfl

theorem parseObjTail_close (f : Nat) (T : List Char) :
    parseObjTail (f + 1) (rbraceC :: T) = some (JObj.nil, T) := rfl

theorem parseObjTail_comma_quote (f : Nat) (T : List Char) :
    parseObjTail (f + 1) (',' :: quoteC :: T) =
      (parseStrBody T).bind (fun kr =>
        (parseColonVal f kr.2).bind (fun vr =>
          (parseObjTail f vr.2).map (fun tr =>
            (JObj.cons (String.mk kr.1) vr.1 tr.1, tr.2)))) := rfl

/-! Fuel bounds: the parser's default fuel suffices on printed output. -/

mutual
theorem jsonFuel_le : ∀ (j : Json), jsonWF j = true → jsonFuel j + 1 ≤ 2 * (printJson j).length
  | Json.null, _ => by simp [jsonFuel, printJson]
  | Json.bool b, _ => by cases b <;> simp [jsonFuel, printJson]
  | Json.num lex, h => by simp [jsonWF] at h
  | Json.str s, _ => by simp [jsonFuel, printJson, printStrChars]
  | Json.arr items, h => by
    have ih := jarrFuel_le items (by simpa [jsonWF] using h)
    simp only [jsonFuel, printJson, List.length_cons, List.length_append,
      List.length_singleton]
    omega
  | Json.obj fields, h => by
    have ih := jobjFuel_le fields (by simpa [jsonWF] using h)
    simp only [jsonFuel, printJson, List.length_cons, List.length_append,
      List.length_singleton]
    omega

theorem jarrFuel_le : ∀ (items : JArr), jarrWF items = true →
    jarrFuel items ≤ 2 * (printJArr items).length + 1
  | JArr.nil, _ => by simp [jarrFuel]
  | JArr.cons hd JArr.nil, h => by
    have hh : jsonWF hd = true := by
      simp only [jarrWF, Bool.and_eq_true] at h
      exact h.1
    have ih := jsonFuel_le hd hh
    simp only [jarrFuel, printJArr]
    omega
  | JArr.cons hd (JArr.cons x tl2), h => by
    obtain ⟨hh, hrest⟩ : jsonWF hd = true ∧ jarrWF (JArr.cons x tl2) = true := by
      simpa [jarrWF, Bool.and_eq_true] using h
    have ih1 := jsonFuel_le hd hh
    have ih2 := jarrFuel_le (JArr.cons x tl2) hrest
    simp only [jarrFuel] at ih2
    simp only [jarrFuel, printJArr, List.length_append, List.length_cons]
    omega

theorem jobjFuel_le : ∀ (fields : JObj), jobjWF fields = true →
    jobjFuel fields ≤ 2 * (printJObj fields).length + 1
  | JObj.nil, _ => by simp [jobjFuel]
  | JObj.cons k v JObj.nil, h => by
    have hv : jsonWF v = true := by
      simp only [jobjWF, Bool.and_eq_true] at h
      exact h.1
    have ih := jsonFuel_le v hv
    simp only [jobjFuel, printJObj, List.length_append, List.length_cons]
    omega
  | JObj.cons k v (JObj.cons k2 v2 tl2), h => by
    obtain ⟨hv, hrest⟩ : jsonWF v = true ∧ jobjWF (JObj.cons k2 v2 tl2) = true := by
      simpa [jobjWF, Bool.and_eq_true] using h
    have ih1 := jsonFuel_le v hv
    have ih2 := jobjFuel_le (JObj.cons k2 v2 tl2) hrest
    simp only [jobjFuel] at ih2
    simp only [jobjFuel, printJObj, List.length_append, List.length_cons]
    omega
end

/-! The printer–parser round trip, by mutual induction. -/

mutual
theorem parseVal_print : ∀ (j : Json), jsonWF j = true → ∀ (fuel : Nat) (rest : List Char),
    jsonFuel j ≤ fuel → parseVal fuel (printJson j ++ rest) = some (j, rest)
  | Json.null, _, fuel, rest, hfuel => by
    cases fuel with
    | zero => simp only [jsonFuel] at hfuel; omega
    | succ f => rfl
  | Json.bool b, _, fuel, rest, hfuel => by
    cases fuel with
    | zero => simp only [jsonFuel] at hfuel; omega
    | succ f => cases b <;> rfl
  | Json.num lex, h, _, _, _ => by simp [jsonWF] at h
  | Json.str s, _, fuel, rest, hfuel => by
    cases fuel with
    | zero => simp only [jsonFuel] at hfuel; omega
    | succ f =>
      have hshape : printJson (Json.str s) ++ rest =
          quoteC :: (escList s.data ++ (quoteC :: rest)) := by
        simp [printJson, printStrChars]
      rw [hshape, parseVal_quote f _, parseStrBody_esc s.data rest]
      simp [jsonStrOf, string_mk_data]
  | Json.arr items, h, fuel, rest, hfuel => by
    cases fuel with
    | zero => simp only [jsonFuel] at hfuel; omega
    | succ f =>
      have hwf : jarrWF items = true := by simpa [jsonWF] using h
      have hshape : printJson (Json.arr items) ++ rest =
          '[' :: (printJArr items ++ (']' :: rest)) := by
        simp [printJson]
      rw [hshape, parseVal_bracket f _]
      exact parseArrItems_print items hwf f rest (by simp only [jsonFuel] at hfuel; omega)
  | Json.obj fields, h, fuel, rest, hfuel => by
    cases fuel with
    | zero => simp only [jsonFuel] at hfuel; omega
    | succ f =>
      have hwf : jobjWF fields = true := by simpa [jsonWF] using h
      have hshape : printJson (Json.obj fields) ++ rest =
          lbraceC :: (printJObj fields ++ (rbraceC :: rest)) := by
        simp [printJson]
      rw [hshape, parseVal_brace f _]
      exact parseObjItems_print fields hwf f rest (by simp only [jsonFuel] at hfuel; omega)

theorem parseArrItems_print : ∀ (items : JArr), jarrWF items = true →
    ∀ (fuel : Nat) (rest : List Char), 1 + jarrFuel items ≤ fuel →
    parseArrItems fuel (printJArr items ++ (']' :: rest)) = some (Json.arr items, rest)
  | JArr.nil, _, fuel, rest, hfuel => by
    cases fuel with
    | zero => omega
    | succ f =>
      rw [show printJArr JArr.nil = ([] : List Char) from by simp [printJArr],
        List.nil_append]
      exact parseArrItems_close f rest
  | JArr.cons hd tl, h, fuel, rest, hfuel => by
    cases fuel with
    | zero => omega
    | succ f =>
      obtain ⟨hh, ht⟩ : jsonWF hd = true ∧ jarrWF tl = true := by
        simpa [jarrWF, Bool.and_eq_true] using h
      have hfv : jsonFuel hd ≤ f := by
        simp only [jarrFuel] at hfuel
        omega
      have hft : 1 + jarrFuel tl ≤ f := by
        have hp := jsonFuel_pos hd
        simp only [jarrFuel] at hfuel
        omega
      have hshape : printJArr (JArr.cons hd tl) ++ (']' :: rest) =
          printJson hd ++ (printTailArr tl ++ (']' :: rest)) := by
        rw [printJArr_eq]
        simp [List.append_assoc]
      rw [hshape]
      obtain ⟨c, l, hhd, hops⟩ := printJson_head hd hh
      rw [hhd, List.cons_append]
      have hws : isWsChar c = false := by
        rcases hops with h' | h' | h' | h' | h' | h' <;> subst h' <;> decide
      have hnb : ¬ (c = ']') := by
        rcases hops with h' | h' | h' | h' | h' | h' <;> subst h' <;> decide
      rw [parseArrItems_step f c _ hws hnb]
      rw [← List.cons_append, ← hhd]
      rw [parseVal_print hd hh f (printTailArr tl ++ (']' :: rest)) hfv]
      show (parseArrTail f (printTailArr tl ++ (']' :: rest))).map
          (fun tr => (Json.arr (JArr.cons hd tr.1), tr.2)) = some (Json.arr (JArr.cons hd tl), rest)
      rw [parseArrTail_print tl ht f rest hft]
      rfl

theorem parseArrTail_print : ∀ (tl : JArr), jarrWF tl = true →
    ∀ (fuel : Nat) (rest : List Char), 1 + jarrFuel tl ≤ fuel →
    parseArrTail fuel (printTailArr tl ++ (']' :: rest)) = some (tl, rest)
  | JArr.nil, _, fuel, rest, hfuel => by
    cases fuel with
    | zero => omega
    | succ f =>
      rw [show printTailArr JArr.nil = ([] : List Char) from by simp [printTailArr],
        List.nil_append]
      exact parseArrTail_close f rest
  | JArr.cons hd tl, h, fuel, rest, hfuel => by
    cases fuel with
    | zero => omega
    | succ f =>
      obtain ⟨hh, ht⟩ : jsonWF hd = true ∧ jarrWF tl = true := by
        simpa [jarrWF, Bool.and_eq_true] using h
      have hfv : jsonFuel hd ≤ f := by
        simp only [jarrFuel] at hfuel
        omega
      have hft : 1 + jarrFuel tl ≤ f := by
        have hp := jsonFuel_pos hd
        simp only [jarrFuel] at hfuel
        omega
      have hshape : printTailArr (JArr.cons hd tl) ++ (']' :: rest) =
          ',' :: (printJson hd ++ (printTailArr tl ++ (']' :: rest))) := by
        simp [printTailArr, List.append_assoc]
      rw [hshape, parseArrTail_comma f _]
      rw [parseVal_print hd hh f (printTailArr tl ++ (']' :: rest)) hfv]
      show (parseArrTail f (printTailArr tl ++ (']' :: rest))).map
          (fun tr => (JArr.cons hd tr.1, tr.2)) = some (JArr.cons hd tl, rest)
      rw [parseArrTail_print tl ht f rest hft]
      rfl

theorem parseObjItems_print : ∀ (fields : JObj), jobjWF fields = true →
    ∀ (fuel : Nat) (rest : List Char), 1 + jobjFuel fields ≤ fuel →
    parseObjItems fuel (printJObj fields ++ (rbraceC :: rest)) = some (Json.obj fields, rest)
  | JObj.nil, _, fuel, rest, hfuel => by
    cases fuel with
    | zero => omega
    | succ f =>
      rw [show printJObj JObj.nil = ([] : List Char) from by simp [printJObj],
        List.nil_append]
      exact parseObjItems_close f rest
  | JObj.cons k v tl, h, fuel, rest, hfuel => by
    cases fuel with
    | zero => omega
    | succ f =>
      obtain ⟨hv, ht⟩ : jsonWF v = true ∧ jobjWF tl = true := by
        simpa [jobjWF, Bool.and_eq_true] using h
      cases f with
      | zero =>
        have hp := jsonFuel_pos v
        simp only [jobjFuel] at hfuel
        omega
      | succ g =>
        have hfv : jsonFuel v ≤ g := by
          simp only [jobjFuel] at hfuel
          omega
        have hft : 1 + jobjFuel tl ≤ g + 1 := by
          have hp := jsonFuel_pos v
          simp only [jobjFuel] at hfuel
          omega
        have hshape : printJObj (JObj.cons k v tl) ++ (rbraceC :: rest) =
            quoteC :: (escList k.data ++ (quoteC :: (':' ::
              (printJson v ++ (printTailObj tl ++ (rbraceC :: rest)))))) := by
          rw [printJObj_eq]
          simp [printStrChars, List.append_assoc]
        rw [hshape, parseObjItems_quote (g + 1) _]
        rw [parseStrBody_esc k.data _]
        show (parseColonVal (g + 1) (':' :: (printJson v ++ (printTailObj tl ++ (rbraceC :: rest))))).bind
            (fun vr => (parseObjTail (g + 1) vr.2).map (fun tr =>
              (Json.obj (JObj.cons (String.mk k.data) vr.1 tr.1), tr.2))) =
          some (Json.obj (JObj.cons k v tl), rest)
        rw [parseColonVal_colon g _]
        rw [parseVal_print v hv g (printTailObj tl ++ (rbraceC :: rest)) hfv]
        show (parseObjTail (g + 1) (printTailObj tl ++ (rbraceC :: rest))).map
            (fun tr => (Json.obj (JObj.cons (String.mk k.data) v tr.1), tr.2)) =
          some (Json.obj (JObj.cons k v tl), rest)
        rw [parseObjTail_print tl ht (g + 1) rest hft]
        simp [string_mk_data]

theorem parseObjTail_print : ∀ (tl : JObj), jobjWF tl = true →
    ∀ (fuel : Nat) (rest : List Char), 1 + jobjFuel tl ≤ fuel →
    parseObjTail fuel (printTailObj tl ++ (rbraceC :: rest)) = some (tl, rest)
  | JObj.nil, _, fuel, rest, hfuel => by
    cases fuel with
    | zero => omega
    | succ f =>
      rw [show printTailObj JObj.nil = ([] : List Char) from by simp [printTailObj],
        List.nil_append]
      exact parseObjTail_close f rest
  | JObj.cons k v tl, h, fuel, rest, hfuel => by
    cases fuel with
    | zero => omega
    | succ f =>
      obtain ⟨hv, ht⟩ : jsonWF v = true ∧ jobjWF tl = true := by
        simpa [jobjWF, Bool.and_eq_true] using h
      cases f with
      | zero =>
        have hp := jsonFuel_pos v
        simp only [jobjFuel] at hfuel
        omega
      | succ g =>
        have hfv : jsonFuel v ≤ g := by
          simp only [jobjFuel] at hfuel
          omega
        have hft : 1 + jobjFuel tl ≤ g + 1 := by
          have hp := jsonFuel_pos v
          simp only [jobjFuel] at hfuel
          omega
        have hshape : printTailObj (JObj.cons k v tl) ++ (rbraceC :: rest) =
            ',' :: (quoteC :: (escList k.data ++ (quoteC :: (':' ::
              (printJson v ++ (printTailObj tl ++ (rbraceC :: rest))))))) := by
          simp [printTailObj, printStrChars, List.append_assoc]
        rw [hshape, parseObjTail_comma_quote (g + 1) _]
        rw [parseStrBody_esc k.data _]
        show (parseColonVal (g + 1) (':' :: (printJson v ++ (printTailObj tl ++ (rbraceC :: rest))))).bind
            (fun vr => (parseObjTail (g + 1) vr.2).map (fun tr =>
              (JObj.cons (String.mk k.data) vr.1 tr.1, tr.2))) =
          some (JObj.cons k v tl, rest)
        rw [parseColonVal_colon g _]
        rw [parseVal_print v hv g (printTailObj tl ++ (rbraceC :: rest)) hfv]
        show (parseObjTail (g + 1) (printTailObj tl ++ (rbraceC :: rest))).map
            (fun tr => (JObj.cons (String.mk k.data) v tr.1, tr.2)) =
          some (JObj.cons k v tl, rest)
        rw [parseObjTail_print tl ht (g + 1) rest hft]
        simp [string_mk_data]
end

/-- `JSON.parse` inverts `JSON.stringify` on everything this component
serializes. -/
theorem parseJson_print (j : Json) (h : jsonWF j = true) :
    parseJson (printJsonStr j) = some j := by
  have hb := jsonFuel_le j h
  have h1 := parseVal_print j h (2 * (printJson j).length + 4) [] (by omega)
  rw [List.append_nil] at h1
  unfold parseJson printJsonStr
  have hd : (String.mk (printJson j)).data = printJson j := rfl
  rw [hd, h1]
  rfl

/-! ### Dates

`Date` objects are identified with their epoch-milliseconds time value.
`toISOString` implements the civil-from-days calendar algorithm and prints
`"YYYY-MM-DDTHH:mm:ss.sssZ"`; the modelled clock range is 1970-01-01 to
9999-12-31 (every real `Date.now()` value; JavaScript's extended-year
formats for dates outside this range are not modelled). `new Date(string)`
is modelled for exactly this format; `new Date(undefined)` and other
non-date shapes give an invalid date.
-/

/-- Last millisecond of year 9999, the top of the modelled clock range. -/
def isoMax : Nat := 253402300799999

/-- Calendar fields of an epoch-milliseconds value. -/
structure DateFields where
  year : Nat
  month : Nat
  day : Nat
  hh : Nat
  mi : Nat
  ss : Nat
  msec : Nat
deriving DecidableEq, Repr

/-- Day (within a 400-year era of the March-based civil calendar) on which
year-of-era `y` starts. -/
def eraYearStart (y : Nat) : Nat := 365 * y + y / 4 - y / 100

/-- Year-of-era of day `doe`: the greatest `y ≤ 399` whose start is not
after `doe`. -/
def yoeOf (doe : Nat) : Nat := Nat.findGreatest (fun y => eraYearStart y ≤ doe) 399

/-- Epoch milliseconds to calendar fields (civil-from-days). -/
def msToFields (ms : Nat) : DateFields :=
  let z := ms / 86400000 + 719468
  let era := z / 146097
  let doe := z % 146097
  let yoe := yoeOf doe
  let y := yoe + era * 400
  let doy := doe - eraYearStart yoe
  let mp := (5 * doy + 2) / 153
  let d := doy - (153 * mp + 2) / 5 + 1
  let m := if mp < 10 then mp + 3 else mp - 9
  let year := if m ≤ 2 then y + 1 else y
  ⟨year, m, d, ms / 3600000 % 24, ms / 60000 % 60, ms / 1000 % 60, ms % 1000⟩

def pad2 (n : Nat) : List Char := [digitChar (n / 10 % 10), digitChar (n % 10)]

def pad3 (n : Nat) : List Char :=
  [digitChar (n / 100 % 10), digitChar (n / 10 % 10), digitChar (n % 10)]

def pad4 (n : Nat) : List Char :=
  [digitChar (n / 1000 % 10), digitChar (n / 100 % 10), digitChar (n / 10 % 10),
    digitChar (n % 10)]

/-- `Date.prototype.toISOString` (equivalently `toJSON`) on the modelled
range. -/
def toISOString (ms : Nat) : String :=
  let F := msToFields ms
  String.mk (pad4 F.year ++ '-' :: pad2 F.month ++ '-' :: pad2 F.day ++
    'T' :: pad2 F.hh ++ ':' :: pad2 F.mi ++ ':' :: pad2 F.ss ++
    '.' :: pad3 F.msec ++ ['Z'])

/-- Days-from-civil: calendar date back to days since the epoch. -/
def daysFromCivil (y m d : Nat) : Nat :=
  let yAdj := if m ≤ 2 then y - 1 else y
  let era := yAdj / 400
  let yoe := yAdj % 400
  let mp := (m + 9) % 12
  let doy := (153 * mp + 2) / 5 + d - 1
  let doe := yoe * 365 + yoe / 4 - yoe / 100 + doy
  era * 146097 + doe - 719468

def digitsVal2 (a b : Char) : Nat := digitVal a * 10 + digitVal b

def digitsVal3 (a b c : Char) : Nat := (digitVal a * 10 + digitVal b) * 10 + digitVal c

def digitsVal4 (a b c d : Char) : Nat :=
  ((digitVal a * 10 + digitVal b) * 10 + digitVal c) * 10 + digitVal d

/-- `new Date(string)` on the ISO format this component writes. Real engines
accept further formats, none of which this component produces; those are
outside the modelled range and yield an invalid date here. -/
def parseIsoDate (s : String) : Option Nat :=
  match s.data with
  | [y1, y2, y3, y4, '-', m1, m2, '-', d1, d2, 'T', h1, h2, ':', i1, i2, ':',
      s1, s2, '.', f1, f2, f3, 'Z'] =>
    if y1.isDigit ∧ y2.isDigit ∧ y3.isDigit ∧ y4.isDigit ∧ m1.isDigit ∧ m2.isDigit ∧
        d1.isDigit ∧ d2.isDigit ∧ h1.isDigit ∧ h2.isDigit ∧ i1.isDigit ∧ i2.isDigit ∧
        s1.isDigit ∧ s2.isDigit ∧ f1.isDigit ∧ f2.isDigit ∧ f3.isDigit then
      let year := digitsVal4 y1 y2 y3 y4
      let m := digitsVal2 m1 m2
      let d := digitsVal2 d1 d2
      let hh := digitsVal2 h1 h2
      let mi := digitsVal2 i1 i2
      let ss := digitsVal2 s1 s2
      let msec := digitsVal3 f1 f2 f3
      if 1970 ≤ year ∧ 1 ≤ m ∧ m ≤ 12 ∧ 1 ≤ d ∧ d ≤ 31 ∧ hh ≤ 23 ∧ mi ≤ 59 ∧ ss ≤ 59 then
        some (daysFromCivil year m d * 86400000 +
          hh * 3600000 + mi * 60000 + ss * 1000 + msec)
      else none
    else none
  | _ => none

theorem yoeOf_le (doe : Nat) : yoeOf doe ≤ 399 := Nat.findGreatest_le 399

theorem yoeOf_start_le (doe : Nat) : eraYearStart (yoeOf doe) ≤ doe := by
  by_cases h : yoeOf doe = 0
  · rw [h]
    show 365 * 0 + 0 / 4 - 0 / 100 ≤ doe
    omega
  · exact Nat.findGreatest_of_ne_zero (P := fun y => eraYearStart y ≤ doe) rfl h

theorem yoeOf_lt_next (doe : Nat) (h : yoeOf doe < 399) :
    doe < eraYearStart (yoeOf doe + 1) := by
  have hng : ¬ (eraYearStart (yoeOf doe + 1) ≤ doe) := by
    apply Nat.findGreatest_is_greatest (P := fun y => eraYearStart y ≤ doe) (n := 399)
    · exact Nat.lt_succ_self _
    · omega
  omega

/-- All calendar fields of an in-range time value are within the ISO field
ranges (notably the year stays within 1970–9999). -/
theorem msToFields_ranges (ms : Nat) (h : ms ≤ isoMax) :
    1970 ≤ (msToFields ms).year ∧ (msToFields ms).year ≤ 9999 ∧
    1 ≤ (msToFields ms).month ∧ (msToFields ms).month ≤ 12 ∧
    1 ≤ (msToFields ms).day ∧ (msToFields ms).day ≤ 31 ∧
    (msToFields ms).hh ≤ 23 ∧ (msToFields ms).mi ≤ 59 ∧
    (msToFields ms).ss ≤ 59 ∧ (msToFields ms).msec ≤ 999 := by
  have h' : ms ≤ 253402300799999 := h
  simp only [msToFields]
  set z := ms / 86400000 + 719468 with hz
  have hz1 : 719468 ≤ z := by omega
  have hz2 : z ≤ 3652364 := by omega
  set era := z / 146097 with hera
  set doe := z % 146097 with hdoe
  have hdoe1 : doe < 146097 := by omega
  have hzsplit : z = 146097 * era + doe := by omega
  have hera1 : 4 ≤ era := by omega
  have hera2 : era ≤ 24 := by omega
  clear_value z
  clear hz h h'
  set yoe := yoeOf doe with hyoe
  have hy1 : yoe ≤ 399 := yoeOf_le doe
  have hy2 : eraYearStart yoe ≤ doe := yoeOf_start_le doe
  have hnext : yoe = 399 ∨ doe < eraYearStart (yoe + 1) := by
    by_cases htop : yoe = 399
    · exact Or.inl htop
    · refine Or.inr (yoeOf_lt_next doe ?_)
      rw [← hyoe]
      omega
  have hsy : eraYearStart yoe = 365 * yoe + yoe / 4 - yoe / 100 := rfl
  have hsy1 : eraYearStart (yoe + 1) = 365 * (yoe + 1) + (yoe + 1) / 4 - (yoe + 1) / 100 := rfl
  clear_value yoe
  rw [hsy] at hy2 ⊢
  rw [hsy1] at hnext
  set doy := doe - (365 * yoe + yoe / 4 - yoe / 100) with hdoy
  have hdoy365 : doy ≤ 365 := by
    rcases hnext with htop | hlt
    · subst htop
      omega
    · omega
  set mp := (5 * doy + 2) / 153 with hmp
  have hmp11 : mp ≤ 11 := by omega
  have hylow1 : mp ≤ 9 → 1970 ≤ yoe + era * 400 := by
    intro hmp9
    have hdoy305 : doy ≤ 305 := by omega
    interval_cases era <;> omega
  have hylow2 : 10 ≤ mp → 1969 ≤ yoe + era * 400 := by
    intro hmp10
    have hdoy306 : 306 ≤ doy := by omega
    interval_cases era <;> omega
  have hyhigh : yoe + era * 400 ≤ 9999 := by omega
  have hyhigh2 : 10 ≤ mp → yoe + era * 400 ≤ 9998 := by
    intro hmp10
    have hdoy306 : 306 ≤ doy := by omega
    interval_cases era <;> omega
  refine ⟨?_, ?_, ?_, ?_, ?_, ?_, ?_, ?_, ?_, ?_⟩ <;> (try split_ifs) <;> omega

theorem digitVal_digitChar_mod (d : Nat) : digitVal (digitChar (d % 10)) = d % 10 :=
  digitVal_digitChar (d % 10) (Nat.mod_lt d (by omega))

/-- Parsing the printed ISO string of an in-range time value succeeds (the
reconstructed `Date` is valid). -/
theorem parseIso_toIso (ms : Nat) (h : ms ≤ isoMax) :
    parseIsoDate (toISOString ms) =
      some (daysFromCivil (msToFields ms).year (msToFields ms).month (msToFields ms).day *
          86400000 + (msToFields ms).hh * 3600000 + (msToFields ms).mi * 60000 +
        (msToFields ms).ss * 1000 + (msToFields ms).msec) := by
  obtain ⟨h1, h2, h3, h4, h5, h6, h7, h8, h9, h10⟩ := msToFields_ranges ms h
  have hdata : (toISOString ms).data =
      [digitChar ((msToFields ms).year / 1000 % 10), digitChar ((msToFields ms).year / 100 % 10),
       digitChar ((msToFields ms).year / 10 % 10), digitChar ((msToFields ms).year % 10), '-',
       digitChar ((msToFields ms).month / 10 % 10), digitChar ((msToFields ms).month % 10), '-',
       digitChar ((msToFields ms).day / 10 % 10), digitChar ((msToFields ms).day % 10), 'T',
       digitChar ((msToFields ms).hh / 10 % 10), digitChar ((msToFields ms).hh % 10), ':',
       digitChar ((msToFields ms).mi / 10 % 10), digitChar ((msToFields ms).mi % 10), ':',
       digitChar ((msToFields ms).ss / 10 % 10), digitChar ((msToFields ms).ss % 10), '.',
       digitChar ((msToFields ms).msec / 100 % 10), digitChar ((msToFields ms).msec / 10 % 10),
       digitChar ((msToFields ms).msec % 10), 'Z'] := by
    simp [toISOString, pad4, pad3, pad2]
  have hy : (((msToFields ms).year / 1000 % 10 * 10 + (msToFields ms).year / 100 % 10) * 10 +
      (msToFields ms).year / 10 % 10) * 10 + (msToFields ms).year % 10 = (msToFields ms).year := by
    omega
  have hmo : (msToFields ms).month / 10 % 10 * 10 + (msToFields ms).month % 10 =
      (msToFields ms).month := by omega
  have hdy : (msToFields ms).day / 10 % 10 * 10 + (msToFields ms).day % 10 =
      (msToFields ms).day := by omega
  have hhh : (msToFields ms).hh / 10 % 10 * 10 + (msToFields ms).hh % 10 =
      (msToFields ms).hh := by omega
  have hmi : (msToFields ms).mi / 10 % 10 * 10 + (msToFields ms).mi % 10 =
      (msToFields ms).mi := by omega
  have hss : (msToFields ms).ss / 10 % 10 * 10 + (msToFields ms).ss % 10 =
      (msToFields ms).ss := by omega
  have hms : ((msToFields ms).msec / 100 % 10 * 10 + (msToFields ms).msec / 10 % 10) * 10 +
      (msToFields ms).msec % 10 = (msToFields ms).msec := by omega
  unfold parseIsoDate
  rw [hdata]
  simp only [digitChar_isDigit, digitsVal4, digitsVal3, digitsVal2, digitVal_digitChar_mod,
    hy, hmo, hdy, hhh, hmi, hss, hms, true_and, and_true, and_self, if_true]
  rw [if_pos ⟨h1, h3, h4, h5, h6, h7, h8, h9⟩]

/-! ### Serialization and restore of the session -/

def senderStr : Sender → String
  | Sender.user => "user"
  | Sender.bot => "bot"

def roleStr : Role → String
  | Role.user => "user"
  | Role.assistant => "assistant"

/-- `JSON.stringify` view of one message: `timestamp` serializes through
`Date.prototype.toJSON` as the ISO string; an absent `isLoading` is omitted,
as `JSON.stringify` omits `undefined` properties. (JavaScript object key
order varies by construction site and is irrelevant to key-based lookup, so
a fixed order is used.) -/
def jsonOfMsg (m : Message) : Json :=
  Json.obj (JObj.cons "id" (Json.str m.id)
    (JObj.cons "content" (Json.str m.content)
      (JObj.cons "sender" (Json.str (senderStr m.sender))
        (JObj.cons "timestamp" (Json.str (toISOString m.timestamp))
          (match m.isLoading with
           | some b => JObj.cons "isLoading" (Json.bool b) JObj.nil
           | none => JObj.nil)))))

def jarrOfList : List Json → JArr
  | [] => JArr.nil
  | j :: rest => JArr.cons j (jarrOfList rest)

def listOfJarr : JArr → List Json
  | JArr.nil => []
  | JArr.cons j tl => j :: listOfJarr tl

def jsonOfMessages (msgs : List Message) : Json :=
  Json.arr (jarrOfList (msgs.map jsonOfMsg))

def jsonOfChatMsg (c : ChatMsg) : Json :=
  Json.obj (JObj.cons "role" (Json.str (roleStr c.role))
    (JObj.cons "content" (Json.str c.content) JObj.nil))

def jsonOfConv (conv : List ChatMsg) : Json :=
  Json.arr (jarrOfList (conv.map jsonOfChatMsg))

/-- `JSON.stringify(messages)` as written by the persisting effect. -/
def serializeMessages (msgs : List Message) : String := printJsonStr (jsonOfMessages msgs)

/-- `JSON.stringify(conversationHistory)` as written by the persisting effect. -/
def serializeConv (conv : List ChatMsg) : String := printJsonStr (jsonOfConv conv)

/-- A restored `Date`: a time value or Invalid Date. -/
inductive DateVal where
  | valid (ms : Nat) : DateVal
  | invalid : DateVal
deriving DecidableEq, Repr

def DateVal.isValid : DateVal → Bool
  | DateVal.valid _ => true
  | DateVal.invalid => false

/-- Field lookup on a parsed JSON object: later duplicate keys win, as when
`JSON.parse` builds a JavaScript object. -/
def jLookup : JObj → String → Option Json
  | JObj.nil, _ => none
  | JObj.cons k v tl, key =>
    match jLookup tl key with
    | some r => some r
    | none => if k = key then some v else none

def asStr : Option Json → Option String
  | some (Json.str s) => some s
  | _ => none

def asBoolOpt : Option Json → Option Bool
  | some (Json.bool b) => some b
  | _ => none

/-- `new Date(x)` for the field shapes that occur in this component's
storage: an ISO string gives that time value; an absent field (`undefined`)
or any other JSON shape gives an invalid date. (Numeric epoch values and the
looser formats real engines coerce never occur here.) -/
def dateOfField : Option Json → DateVal
  | some (Json.str s) =>
    match parseIsoDate s with
    | some k => DateVal.valid k
    | none => DateVal.invalid
  | _ => DateVal.invalid

/-- The in-memory result of restoring one persisted element:
`{ ...msg, timestamp: new Date(msg.timestamp) }`. A missing object field is
`undefined` (`none`); a non-object element spreads to an object with none of
the message fields. -/
structure RawMessage where
  id : Option String
  content : Option String
  sender : Option String
  timestamp : DateVal
  isLoading : Option Bool
deriving DecidableEq, Repr

def restoreMsg (j : Json) : RawMessage :=
  match j with
  | Json.obj kvs =>
    { id := asStr (jLookup kvs "id"), content := asStr (jLookup kvs "content"),
      sender := asStr (jLookup kvs "sender"),
      timestamp := dateOfField (jLookup kvs "timestamp"),
      isLoading := asBoolOpt (jLookup kvs "isLoading") }
  | _ =>
    { id := none, content := none, sender := none, timestamp := dateOfField none,
      isLoading := none }

/-- The in-memory view of a live (non-restored) message. -/
def rawOfMessage (m : Message) : RawMessage :=
  { id := some m.id, content := some m.content, sender := some (senderStr m.sender),
    timestamp := DateVal.valid m.timestamp, isLoading := m.isLoading }

/-- The messages `useState` initializer: if a saved string is present (and
truthy), parse it and map each element through the timestamp coercion; a
parse failure, or the TypeError thrown by `.map` on a non-array, is caught
and falls through to the seeded welcome message. -/
def initMessages (saved : Option String) (now : Nat) : List RawMessage :=
  match saved with
  | none => [rawOfMessage (welcomeMessage now)]
  | some s =>
    if s = "" then [rawOfMessage (welcomeMessage now)]
    else
      match parseJson s with
      | some (Json.arr items) => (listOfJarr items).map restoreMsg
      | some _ => [rawOfMessage (welcomeMessage now)]
      | none => [rawOfMessage (welcomeMessage now)]

/-- The conversation-history `useState` initializer: the parsed JSON is
returned as-is — no validation and no element mapping; a parse failure is
caught and yields the empty history. -/
def initConversation (saved : Option String) : Json :=
  match saved with
  | none => Json.arr JArr.nil
  | some s =>
    if s = "" then Json.arr JArr.nil
    else
      match parseJson s with
      | some j => j
      | none => Json.arr JArr.nil

def isArrOpt : Option Json → Bool
  | some (Json.arr _) => true
  | _ => false

def roleOfStr (s : String) : Option Role :=
  if s = "user" then some Role.user
  else if s = "assistant" then some Role.assistant
  else none

/-- Reading a restored conversation value back as a typed exchange list
(used to state equality with the original exchange log). -/
def chatOfJson (j : Json) : Option ChatMsg :=
  match j with
  | Json.obj kvs =>
    match asStr (jLookup kvs "role"), asStr (jLookup kvs "content") with
    | some r, some c =>
      match roleOfStr r with
      | some role => some { role := role, content := c }
      | none => none
    | _, _ => none
  | _ => none

def decodeConvList : List Json → Option (List ChatMsg)
  | [] => some []
  | j :: rest =>
    match chatOfJson j with
    | some c =>
      match decodeConvList rest with
      | some cs => some (c :: cs)
      | none => none
    | none => none

def convOfJson (j : Json) : Option (List ChatMsg) :=
  match j with
  | Json.arr items => decodeConvList (listOfJarr items)
  | _ => none

/-- The persisting effect for messages:
`localStorage.setItem(key + "-messages", JSON.stringify(messages))`. -/
def persistMessages (store : Store) (storageKey : String) (msgs : List Message) :
    Except Unit Store :=
  store.setItem (storageKey ++ "-messages") (serializeMessages msgs)

/-- The persisting effect for the conversation history. -/
def persistConversation (store : Store) (storageKey : String) (conv : List ChatMsg) :
    Except Unit Store :=
  store.setItem (storageKey ++ "-conversation") (serializeConv conv)

/-- `clearChat` followed by the two persisting effects (both re-run because
both states changed). -/
def clearChatAndPersist (storageKey : String) (now : Nat) (store : Store) :
    (List Message × List ChatMsg) × Except Unit Store :=
  let r := clearChat storageKey now store
  match r.2 with
  | Except.ok s2 =>
    match persistMessages s2 storageKey r.1.1 with
    | Except.ok s3 =>
      match persistConversation s3 storageKey r.1.2 with
      | Except.ok s4 => (r.1, Except.ok s4)
      | Except.error e => (r.1, Except.error e)
    | Except.error e => (r.1, Except.error e)
  | Except.error e => (r.1, Except.error e)

/-- The `useState` initializers on a reload, reading both entries through
`localStorage.getItem` (which may itself throw, outside the try/catch). -/
def initFromStore (store : Store) (storageKey : String) (now : Nat) :
    Except Unit (List RawMessage × Json) :=
  match store.getItem (storageKey ++ "-messages") with
  | Except.error e => Except.error e
  | Except.ok savedM =>
    match store.getItem (storageKey ++ "-conversation") with
    | Except.error e => Except.error e
    | Except.ok savedC => Except.ok (initMessages savedM now, initConversation savedC)

/-! ### Round-trip facts for the persisted session -/

theorem listOfJarr_jarrOfList : ∀ (l : List Json), listOfJarr (jarrOfList l) = l
  | [] => rfl
  | j :: rest => by
    simp only [jarrOfList, listOfJarr]
    rw [listOfJarr_jarrOfList rest]

theorem jsonWF_msg (m : Message) : jsonWF (jsonOfMsg m) = true := by
  cases hl : m.isLoading <;> simp [jsonOfMsg, hl, jsonWF, jobjWF]

theorem jarrWF_ofList (l : List Json) (h : ∀ j ∈ l, jsonWF j = true) :
    jarrWF (jarrOfList l) = true := by
  induction l with
  | nil => rfl
  | cons j rest ih =>
    simp only [jarrOfList, jarrWF, Bool.and_eq_true]
    exact ⟨h j (List.mem_cons_self j rest),
      ih (fun x hx => h x (List.mem_cons_of_mem j hx))⟩

theorem jsonWF_messages (msgs : List Message) : jsonWF (jsonOfMessages msgs) = true := by
  simp only [jsonOfMessages, jsonWF]
  refine jarrWF_ofList _ ?_
  intro j hj
  obtain ⟨m, _, hm⟩ := List.mem_map.mp hj
  rw [← hm]
  exact jsonWF_msg m

theorem jsonWF_chatMsg (c : ChatMsg) : jsonWF (jsonOfChatMsg c) = true := by
  simp [jsonOfChatMsg, jsonWF, jobjWF]

theorem jsonWF_conv (conv : List ChatMsg) : jsonWF (jsonOfConv conv) = true := by
  simp only [jsonOfConv, jsonWF]
  refine jarrWF_ofList _ ?_
  intro j hj
  obtain ⟨c, _, hc⟩ := List.mem_map.mp hj
  rw [← hc]
  exact jsonWF_chatMsg c

theorem serializeMessages_ne_empty (msgs : List Message) : serializeMessages msgs ≠ "" := by
  intro h
  have hd := congrArg String.data h
  have hh := congrArg List.length hd
  rw [show (serializeMessages msgs).data = printJson (jsonOfMessages msgs) from rfl] at hh
  have := printJson_head (jsonOfMessages msgs) (jsonWF_messages msgs)
  obtain ⟨c, cs, hc, -⟩ := this
  rw [hc] at hh
  simp at hh

theorem serializeConv_ne_empty (conv : List ChatMsg) : serializeConv conv ≠ "" := by
  intro h
  have hd := congrArg String.data h
  have hh := congrArg List.length hd
  rw [show (serializeConv conv).data = printJson (jsonOfConv conv) from rfl] at hh
  have := printJson_head (jsonOfConv conv) (jsonWF_conv conv)
  obtain ⟨c, cs, hc, -⟩ := this
  rw [hc] at hh
  simp at hh

/-- Restoring the messages the persisting effect wrote always takes the
parsed-array branch: each element comes back through `restoreMsg`. -/
theorem initMessages_serialized (msgs : List Message) (now : Nat) :
    initMessages (some (serializeMessages msgs)) now =
      (msgs.map jsonOfMsg).map restoreMsg := by
  simp only [initMessages]
  rw [if_neg (serializeMessages_ne_empty msgs)]
  rw [show parseJson (serializeMessages msgs) = some (jsonOfMessages msgs) from
    parseJson_print _ (jsonWF_messages msgs)]
  simp only [jsonOfMessages, listOfJarr_jarrOfList]

/-- Restoring the conversation the persisting effect wrote returns the
parsed value unchanged. -/
theorem initConversation_serialized (conv : List ChatMsg) :
    initConversation (some (serializeConv conv)) = jsonOfConv conv := by
  simp only [initConversation]
  rw [if_neg (serializeConv_ne_empty conv)]
  rw [show parseJson (serializeConv conv) = some (jsonOfConv conv) from
    parseJson_print _ (jsonWF_conv conv)]

theorem dateOfField_str (s : String) : dateOfField (some (Json.str s)) =
    (match parseIsoDate s with
     | some k => DateVal.valid k
     | none => DateVal.invalid) := rfl

/-- Field-level round trip of one message: identity, content, sender and the
isLoading flag come back exactly; the timestamp comes back as a valid date. -/
theorem restoreMsg_jsonOfMsg (m : Message) (hms : m.timestamp ≤ isoMax) :
    (restoreMsg (jsonOfMsg m)).id = some m.id ∧
    (restoreMsg (jsonOfMsg m)).content = some m.content ∧
    (restoreMsg (jsonOfMsg m)).sender = some (senderStr m.sender) ∧
    (restoreMsg (jsonOfMsg m)).timestamp.isValid = true ∧
    (restoreMsg (jsonOfMsg m)).isLoading = m.isLoading := by
  obtain ⟨mid, mcontent, msender, mts, mload⟩ := m
  obtain ⟨k, hk⟩ : ∃ k, parseIsoDate (toISOString mts) = some k :=
    ⟨_, parseIso_toIso mts hms⟩
  cases mload with
  | none =>
    refine ⟨rfl, rfl, rfl, ?_, rfl⟩
    show (dateOfField (some (Json.str (toISOString mts)))).isValid = true
    rw [dateOfField_str, hk]
    rfl
  | some b =>
    refine ⟨rfl, rfl, rfl, ?_, rfl⟩
    show (dateOfField (some (Json.str (toISOString mts)))).isValid = true
    rw [dateOfField_str, hk]
    rfl

theorem chatOfJson_mk (c : ChatMsg) : chatOfJson (jsonOfChatMsg c) = some c := by
  obtain ⟨role, content⟩ := c
  cases role <;> simp [chatOfJson, jsonOfChatMsg, jLookup, asStr, roleOfStr, roleStr]

theorem decodeConvList_map : ∀ (conv : List ChatMsg),
    decodeConvList (conv.map jsonOfChatMsg) = some conv
  | [] => rfl
  | c :: rest => by
    simp only [List.map_cons, decodeConvList, chatOfJson_mk, decodeConvList_map rest]

theorem convOfJson_serialized (conv : List ChatMsg) :
    convOfJson (jsonOfConv conv) = some conv := by
  simp only [jsonOfConv, convOfJson, listOfJarr_jarrOfList]
  exact decodeConvList_map conv

/-- Per-element field facts for a restored serialized list. -/
theorem restored_fields (msgs : List Message)
    (hms : ∀ m ∈ msgs, m.timestamp ≤ isoMax) :
    ((msgs.map jsonOfMsg).map restoreMsg).map
        (fun r => (r.id, r.content, r.sender, r.isLoading)) =
      msgs.map (fun m => (some m.id, some m.content, some (senderStr m.sender),
        m.isLoading)) ∧
    ∀ r ∈ (msgs.map jsonOfMsg).map restoreMsg, r.timestamp.isValid = true := by
  induction msgs with
  | nil =>
    refine ⟨rfl, ?_⟩
    intro r hr
    simp at hr
  | cons m rest ih =>
    obtain ⟨ih1, ih2⟩ := ih (fun x hx => hms x (List.mem_cons_of_mem m hx))
    obtain ⟨h1, h2, h3, h4, h5⟩ := restoreMsg_jsonOfMsg m (hms m (List.mem_cons_self m rest))
    constructor
    · simp only [List.map_cons, ih1, h1, h2, h3, h5]
    · intro r hr
      simp only [List.map_cons, List.mem_cons] at hr
      rcases hr with h | h
      · rw [h]
        exact h4
      · exact ih2 r (by simpa using h)

/-! ### Store lookup facts -/

theorem lookupItems_removeItems_self (items : List (String × String)) (k : String) :
    lookupItems (removeItems items k) k = none := by
  induction items with
  | nil => rfl
  | cons p rest ih =>
    obtain ⟨k', v⟩ := p
    by_cases h : k' = k
    · simp [removeItems, h, ih]
    · simp [removeItems, lookupItems, h, ih]

theorem lookupItems_removeItems_other (items : List (String × String)) (k k' : String)
    (h : k' ≠ k) : lookupItems (removeItems items k) k' = lookupItems items k' := by
  induction items with
  | nil => rfl
  | cons p rest ih =>
    obtain ⟨k2, v⟩ := p
    by_cases h2 : k2 = k
    · subst h2
      have hk : k2 ≠ k' := fun he => h (he ▸ rfl)
      simp [removeItems, lookupItems, hk, ih]
    · simp only [removeItems, if_neg h2, lookupItems]
      rw [ih]

theorem storageKeys_ne (key : String) : key ++ "-messages" ≠ key ++ "-conversation" := by
  intro h
  have hd := congrArg (fun s => s.data.length) h
  simp only [String.data_append, List.length_append] at hd
  have h9 : ("-messages" : String).data.length = 9 := rfl
  have h13 : ("-conversation" : String).data.length = 13 := rfl
  rw [h9, h13] at hd
  omega

/-- The whole clear-then-persist pipeline on a storage whose operations
succeed: both entries are removed by `clearChat`, then rewritten by the
persisting effects with the serialized cleared state. -/
theorem clearChatAndPersist_ok (key : String) (now : Nat) (store : Store)
    (hs : store.setFails = false) (hr : store.removeFails = false) :
    ∃ s2 s4 : Store,
      (clearChat key now store).2 = Except.ok s2 ∧
      lookupItems s2.items (key ++ "-messages") = none ∧
      lookupItems s2.items (key ++ "-conversation") = none ∧
      clearChatAndPersist key now store = (([clearedMessage now], []), Except.ok s4) ∧
      s4.getFails = store.getFails ∧
      lookupItems s4.items (key ++ "-messages") =
        some (serializeMessages [clearedMessage now]) ∧
      lookupItems s4.items (key ++ "-conversation") =
        some (serializeConv ([] : List ChatMsg)) := by
  have hne := storageKeys_ne key
  refine ⟨Store.mk
      (removeItems (removeItems store.items (key ++ "-messages")) (key ++ "-conversation"))
      store.getFails store.setFails store.removeFails,
    Store.mk
      ((key ++ "-conversation", serializeConv ([] : List ChatMsg)) ::
        removeItems ((key ++ "-messages", serializeMessages [clearedMessage now]) ::
          removeItems (removeItems (removeItems store.items (key ++ "-messages"))
            (key ++ "-conversation")) (key ++ "-messages")) (key ++ "-conversation"))
      store.getFails store.setFails store.removeFails,
    ?_, ?_, ?_, ?_, rfl, ?_, ?_⟩
  · simp [clearChat, Store.removeItem, hr]
  · rw [lookupItems_removeItems_other _ _ _ hne]
    exact lookupItems_removeItems_self _ _
  · exact lookupItems_removeItems_self _ _
  · simp [clearChatAndPersist, clearChat, Store.removeItem, hr, persistMessages,
      persistConversation, Store.setItem, hs]
  · simp only [lookupItems]
    rw [if_neg (Ne.symm hne), lookupItems_removeItems_other _ _ _ hne]
    simp only [lookupItems]
    rw [if_pos trivial]
  · simp only [lookupItems]
    rw [if_pos trivial]

/-- Reloading from a storage whose reads succeed runs both initializers on
the stored strings. -/
theorem initFromStore_ok (store : Store) (key : String) (now : Nat)
    (sm sc : String) (hg : store.getFails = false)
    (hm : lookupItems store.items (key ++ "-messages") = some sm)
    (hc : lookupItems store.items (key ++ "-conversation") = some sc) :
    initFromStore store key now =
      Except.ok (initMessages (some sm) now, initConversation (some sc)) := by
  simp [initFromStore, Store.getItem, hg, hm, hc]

/-! ### Sample data for concrete inputs -/

/-- Sample messages for concrete inputs. -/
def sampleMessages (n : Nat) : List Message :=
  (List.range n).map (fun i => mkMessage (natToString i) Sender.user none i "abcdefghi")

/-- Sample exchange pairs for concrete inputs. -/
def samplePairs (n : Nat) : List (String × String) :=
  (List.range n).map (fun i => (natToString i, natToString (i + 1)))

/-- A working storage with no entries. -/
def store0 : Store :=
  { items := [], getFails := false, setFails := false, removeFails := false }

/-- A concrete session log (with an escaped quote, a newline, and an
isLoading flag, to exercise the string escaping and the optional field). -/
def sampleSession : List Message :=
  [{ id := "initial", content := welcomeText, sender := Sender.bot,
     timestamp := 1700000000000, isLoading := none },
   { id := "1700000000055abc123xy", content := "What is \"retinol\"?",
     sender := Sender.user, timestamp := 1700000000055, isLoading := none },
   { id := "1700000000300def456zw", content := "A vitamin-A derivative.\nUse at night.",
     sender := Sender.bot, timestamp := 1700000000300, isLoading := some false }]

/-- The matching concrete exchange log. -/
def sampleConv : List ChatMsg :=
  [{ role := Role.user, content := "What is \"retinol\"?" },
   { role := Role.assistant, content := "A vitamin-A derivative.\nUse at night." }]

/-! ### Claim theorems: history truncation -/

/-- C1: for every sequence of `addMessage` calls (with a positive configured
cap, default 50), the resulting message list is exactly the insertion-order
sequence of created messages truncated from the front (oldest evicted first),
and its length never exceeds the cap. Adding 55 messages at cap 50 thus
leaves the 5 oldest evicted and the newest 50, oldest first. -/
theorem addMessage_history_truncation (cap : Nat) (hcap : 1 ≤ cap) (msgs : List Message) :
    runAdds cap msgs = msgs.drop (msgs.length - cap) ∧ (runAdds cap msgs).length ≤ cap := by
  have h := runAdds_eq cap msgs
  have hne : ¬ (cap = 0) := by omega
  rw [jsSliceLast, if_neg hne] at h
  refine ⟨h, ?_⟩
  rw [h]
  simp
  omega

theorem addMessage_history_truncation_witness :
    runAdds 50 (sampleMessages 55) =
      (sampleMessages 55).drop ((sampleMessages 55).length - 50) ∧
    (runAdds 50 (sampleMessages 55)).length ≤ 50 :=
  addMessage_history_truncation 50 (by decide) (sampleMessages 55)

/-- C3: each `updateConversationHistory` call appends exactly one user entry
followed by one assistant entry; with no eviction (at most `cap / 2` calls
from empty), after `N` calls the log is exactly the flattened pair sequence,
has length `2 N`, and alternates user/assistant at even/odd indices. -/
theorem updateConversationHistory_pair_alternation (cap : Nat)
    (ps : List (String × String)) (h : ps.length ≤ cap / 2) :
    runUpdates cap ps = toEntries ps ∧
    (runUpdates cap ps).length = 2 * ps.length ∧
    ∀ i, i < 2 * ps.length →
      (runUpdates cap ps)[i]?.map (fun e => e.role) =
        some (if i % 2 = 0 then Role.user else Role.assistant) := by
  have heq : runUpdates cap ps = toEntries ps := by
    rw [runUpdates_eq]
    congr 1
    by_cases hm : cap / 2 = 0
    · simp [jsSliceLast, hm]
    · have h0 : ps.length - cap / 2 = 0 := by omega
      simp [jsSliceLast, hm, h0]
  refine ⟨heq, ?_, ?_⟩
  · rw [heq, length_toEntries]
  · intro i hi
    rw [heq]
    exact toEntries_role ps i hi

theorem updateConversationHistory_pair_alternation_witness :
    runUpdates 50 (samplePairs 3) = toEntries (samplePairs 3) ∧
    (runUpdates 50 (samplePairs 3)).length = 2 * (samplePairs 3).length ∧
    ∀ i, i < 2 * (samplePairs 3).length →
      (runUpdates 50 (samplePairs 3))[i]?.map (fun e => e.role) =
        some (if i % 2 = 0 then Role.user else Role.assistant) :=
  updateConversationHistory_pair_alternation 50 (samplePairs 3) (by decide)

/-- C4: with a cap of at least 2, the exchange log after any call sequence is
the flattening of the most recent `cap / 2` whole pairs — eviction removes
oldest whole pairs and never splits one — and its total length never exceeds
the cap. -/
theorem exchange_eviction_whole_pairs (cap : Nat) (hcap : 2 ≤ cap)
    (ps : List (String × String)) :
    runUpdates cap ps = toEntries (ps.drop (ps.length - cap / 2)) ∧
    (runUpdates cap ps).length ≤ cap := by
  have hm : ¬ (cap / 2 = 0) := by omega
  have heq : runUpdates cap ps = toEntries (ps.drop (ps.length - cap / 2)) := by
    rw [runUpdates_eq]
    simp [jsSliceLast, hm]
  refine ⟨heq, ?_⟩
  rw [heq, length_toEntries]
  simp
  omega

theorem exchange_eviction_whole_pairs_witness :
    runUpdates 4 (samplePairs 5) =
      toEntries ((samplePairs 5).drop ((samplePairs 5).length - 4 / 2)) ∧
    (runUpdates 4 (samplePairs 5)).length ≤ 4 :=
  exchange_eviction_whole_pairs 4 (by decide) (samplePairs 5)

/-- C5: for every cap and every sequence of `updateConversationHistory`
calls from an empty exchange log, the log length is always even. -/
theorem exchange_length_even (cap : Nat) (ps : List (String × String)) :
    (runUpdates cap ps).length % 2 = 0 := by
  rw [runUpdates_eq, length_toEntries]
  omega

/-- C10: when the configured cap is 0 or 1, `Math.floor(cap / 2) = 0` and the
eviction branch slices with `-0`, which keeps the whole array, so the
exchange log is unbounded: after `N` calls from empty it has exactly `2 N`
entries. -/
theorem small_cap_no_exchange_eviction (cap : Nat) (hcap : cap ≤ 1)
    (ps : List (String × String)) :
    runUpdates cap ps = toEntries ps ∧
    (runUpdates cap ps).length = 2 * ps.length := by
  have hm : cap / 2 = 0 := by omega
  have heq : runUpdates cap ps = toEntries ps := by
    rw [runUpdates_eq]
    simp [jsSliceLast, hm]
  exact ⟨heq, by rw [heq, length_toEntries]⟩

theorem small_cap_no_exchange_eviction_witness :
    runUpdates 1 (samplePairs 3) = toEntries (samplePairs 3) ∧
    (runUpdates 1 (samplePairs 3)).length = 2 * (samplePairs 3).length :=
  small_cap_no_exchange_eviction 1 (by decide) (samplePairs 3)

/-! ### Claim theorems: persistence failure semantics -/

/-- C2 counterexample: with a storage whose `removeItem` throws (storage
disabled), `clearChat` propagates the exception to its caller — the code has
no try/catch around the `localStorage.removeItem` calls, so the claim that
persistence failures never propagate from the public operations is false. -/
theorem clearChat_remove_failure_propagates :
    exceptIsError (clearChat "skincare-chat-history" 0
      { items := [], getFails := false, setFails := false, removeFails := true }).2 = true := rfl

/-- C2 (amended): the in-memory logs are updated as specified regardless of
persistence failures — `addMessage` and `updateConversationHistory` touch no
storage synchronously (the persisting effects run separately), and
`clearChat` performs its state updates before touching storage — but
storage-access failures are NOT caught: `clearChat` raises exactly when
`removeItem` throws, and a deferred persistence write raises exactly when
`setItem` throws. Only JSON-parse failures on restore are absorbed (C7). -/
theorem persistence_failure_semantics (key : String) (now : Nat) (store : Store) :
    (clearChat key now store).1 = ([clearedMessage now], []) ∧
    exceptIsError (clearChat key now store).2 = store.removeFails ∧
    ∀ k v, exceptIsError (store.setItem k v) = store.setFails := by
  refine ⟨?_, ?_, ?_⟩
  · rcases h1 : store.removeItem (key ++ "-messages") with e | s1
    · simp [clearChat, h1]
    · rcases h2 : s1.removeItem (key ++ "-conversation") with e | s2 <;>
        simp [clearChat, h1, h2]
  · by_cases hr : store.removeFails = true
    · simp [clearChat, Store.removeItem, hr, exceptIsError]
    · simp only [Bool.not_eq_true] at hr
      simp [clearChat, Store.removeItem, hr, exceptIsError]
  · intro k v
    by_cases hs : store.setFails = true
    · simp [Store.setItem, hs, exceptIsError]
    · simp only [Bool.not_eq_true] at hs
      simp [Store.setItem, hs, exceptIsError]

/-! ### Claim theorems: message identity -/

/-- C9 counterexample: identifiers are `Date.now().toString()` plus a random
base-36 suffix; if two `addMessage` calls observe the same millisecond and
the same random suffix, the second message's id equals an id already in the
log, so ids are not guaranteed unique. -/
theorem addMessage_id_collision :
    (addMessage 50 ((addMessage 50 [] "Hi" Sender.user none 5 "abc").2)
        "Yo" Sender.bot none 5 "abc").1.id ∈
      ((addMessage 50 [] "Hi" Sender.user none 5 "abc").2.map (fun m => m.id)) ∧
    (addMessage 50 ((addMessage 50 [] "Hi" Sender.user none 5 "abc").2)
        "Yo" Sender.bot none 5 "abc").1.content ≠
      (addMessage 50 [] "Hi" Sender.user none 5 "abc").1.content := by
  constructor
  · decide
  · decide

/-- C9 (amended): `addMessage` returns exactly the message it appended: its
content and sender equal the arguments, its timestamp is the call time, its
id is `Date.now().toString() + randomSuffix`; that id always differs from the
seeded welcome id `"initial"`, and (for a positive cap) the returned message
is the last element of the updated log. Distinctness from previously
generated ids is collision-resistant only: it holds when the (time, suffix)
pairs differ, not unconditionally (see the counterexample). -/
theorem addMessage_returns_appended (cap : Nat) (hcap : 1 ≤ cap) (prev : List Message)
    (content : String) (sender : Sender) (isLoading : Option Bool)
    (now : Nat) (rand : String) :
    (addMessage cap prev content sender isLoading now rand).1.content = content ∧
    (addMessage cap prev content sender isLoading now rand).1.sender = sender ∧
    (addMessage cap prev content sender isLoading now rand).1.timestamp = now ∧
    (addMessage cap prev content sender isLoading now rand).1.id = mkId now rand ∧
    (addMessage cap prev content sender isLoading now rand).1.id ≠ "initial" ∧
    (addMessage cap prev content sender isLoading now rand).2.getLast? =
      some (addMessage cap prev content sender isLoading now rand).1 := by
  refine ⟨rfl, rfl, rfl, rfl, mkId_ne_initial now rand, ?_⟩
  exact capStep_getLast cap hcap prev _

theorem addMessage_returns_appended_witness :
    (addMessage 50 [welcomeMessage 0] "Hi" Sender.user none 7 "xyz").1.content = "Hi" ∧
    (addMessage 50 [welcomeMessage 0] "Hi" Sender.user none 7 "xyz").1.sender = Sender.user ∧
    (addMessage 50 [welcomeMessage 0] "Hi" Sender.user none 7 "xyz").1.timestamp = 7 ∧
    (addMessage 50 [welcomeMessage 0] "Hi" Sender.user none 7 "xyz").1.id = mkId 7 "xyz" ∧
    (addMessage 50 [welcomeMessage 0] "Hi" Sender.user none 7 "xyz").1.id ≠ "initial" ∧
    (addMessage 50 [welcomeMessage 0] "Hi" Sender.user none 7 "xyz").2.getLast? =
      some (addMessage 50 [welcomeMessage 0] "Hi" Sender.user none 7 "xyz").1 :=
  addMessage_returns_appended 50 (by decide) [welcomeMessage 0] "Hi" Sender.user none 7 "xyz"

/-! ### Claim theorems: clearing, restore fallback, and the round trip -/

/-- C6 counterexample: `clearChat` seeds the id `"initial-" + Date.now()`,
so two clears in the same millisecond produce the same id. With the prior
message log produced by a clear at clock value 5, a second `clearChat` at
clock value 5 yields a message whose id list coincides with the prior log's
id list: the cleared message's identifier is not distinct from every prior
message id. -/
theorem clearChat_id_not_fresh :
    (clearChat "skincare-chat-history" 5 store0).1.1.map (fun m => m.id) =
      [clearedMessage 5].map (fun m => m.id) ∧
    (clearedMessage 5).id = "initial-5" := by
  decide

/-- C6 (amended): on a storage whose operations succeed, `clearChat` leaves
exactly the single cleared message and the empty exchange log; the cleared
id differs from the seeded `"initial"` id and from every `addMessage` id,
and collides with another cleared id only at an equal clock value (it is not
distinct from every prior id unconditionally — see the counterexample).
Both persisted entries are removed by `clearChat`, the persisting effects
rewrite them with the serialized cleared state, and a reload restores
exactly that state: one message carrying the cleared text and bot sender
with a valid timestamp, and an exchange log that decodes to the empty
list. -/
theorem clearChat_resets_and_repersists (key : String) (now nowR : Nat) (store : Store)
    (hg : store.getFails = false) (hs : store.setFails = false)
    (hr : store.removeFails = false) (hms : now ≤ isoMax) :
    (clearChatAndPersist key now store).1 = ([clearedMessage now], []) ∧
    (clearedMessage now).id ≠ "initial" ∧
    (∀ t rand, (clearedMessage now).id ≠ mkId t rand) ∧
    (∀ t, (clearedMessage now).id = (clearedMessage t).id → now = t) ∧
    ∃ s2 s4 : Store,
      (clearChat key now store).2 = Except.ok s2 ∧
      lookupItems s2.items (key ++ "-messages") = none ∧
      lookupItems s2.items (key ++ "-conversation") = none ∧
      (clearChatAndPersist key now store).2 = Except.ok s4 ∧
      initFromStore s4 key nowR = Except.ok
        ([restoreMsg (jsonOfMsg (clearedMessage now))], Json.arr JArr.nil) ∧
      (restoreMsg (jsonOfMsg (clearedMessage now))).content = some clearedText ∧
      (restoreMsg (jsonOfMsg (clearedMessage now))).sender =
        some (senderStr Sender.bot) ∧
      (restoreMsg (jsonOfMsg (clearedMessage now))).timestamp.isValid = true ∧
      convOfJson (Json.arr JArr.nil) = some ([] : List ChatMsg) := by
  obtain ⟨s2, s4, h1, h2, h3, h4, h5, h6, h7⟩ := clearChatAndPersist_ok key now store hs hr
  obtain ⟨c1, c2, c3, c4, c5⟩ := restoreMsg_jsonOfMsg (clearedMessage now) hms
  refine ⟨by rw [h4], clearedId_ne_initial now, fun t rand => clearedId_ne_mkId now t rand,
    fun t h => clearedId_inj now t h, s2, s4, h1, h2, h3, by rw [h4], ?_, c2, c3, c4, rfl⟩
  rw [initFromStore_ok s4 key nowR (serializeMessages [clearedMessage now])
      (serializeConv ([] : List ChatMsg)) (by rw [h5, hg]) h6 h7,
    initMessages_serialized, initConversation_serialized]
  rfl

/-- Witness for the amended C6 theorem at a concrete clock value and a
working storage. -/
theorem clearChat_resets_and_repersists_witness :
    (clearChatAndPersist "skincare-chat-history" 1700000000000 store0).1 =
      ([clearedMessage 1700000000000], []) ∧
    (clearedMessage 1700000000000).id ≠ "initial" ∧
    (∀ t rand, (clearedMessage 1700000000000).id ≠ mkId t rand) ∧
    (∀ t, (clearedMessage 1700000000000).id = (clearedMessage t).id →
      1700000000000 = t) ∧
    ∃ s2 s4 : Store,
      (clearChat "skincare-chat-history" 1700000000000 store0).2 = Except.ok s2 ∧
      lookupItems s2.items ("skincare-chat-history" ++ "-messages") = none ∧
      lookupItems s2.items ("skincare-chat-history" ++ "-conversation") = none ∧
      (clearChatAndPersist "skincare-chat-history" 1700000000000 store0).2 =
        Except.ok s4 ∧
      initFromStore s4 "skincare-chat-history" 0 = Except.ok
        ([restoreMsg (jsonOfMsg (clearedMessage 1700000000000))], Json.arr JArr.nil) ∧
      (restoreMsg (jsonOfMsg (clearedMessage 1700000000000))).content =
        some clearedText ∧
      (restoreMsg (jsonOfMsg (clearedMessage 1700000000000))).sender =
        some (senderStr Sender.bot) ∧
      (restoreMsg (jsonOfMsg (clearedMessage 1700000000000))).timestamp.isValid =
        true ∧
      convOfJson (Json.arr JArr.nil) = some ([] : List ChatMsg) :=
  clearChat_resets_and_repersists "skincare-chat-history" 1700000000000 0 store0
    rfl rfl rfl (by decide)

/-- C7 counterexample: the persisted string `["x"]` is not a parseable
serialization of a message array (its element is a bare string), yet the
initializer does not fall back to the welcome seed: `JSON.parse` succeeds,
`.map` succeeds on the array, and one junk entry is restored with every
message field undefined and an invalid timestamp. -/
theorem restore_junk_array_not_welcome :
    initMessages (some "[\"x\"]") 7 ≠ [rawOfMessage (welcomeMessage 7)] ∧
    (initMessages (some "[\"x\"]") 7).map (fun r => r.content) = [none] := by
  decide

/-- C7 (amended): the initializer never raises: when the saved messages
string fails `JSON.parse`, or parses to a non-array (so that `.map` throws a
TypeError inside the try/catch), it yields exactly the single seeded welcome
message; a saved conversation string that fails to parse yields the empty
exchange log. A string that parses to a JSON array but is not a serialized
message array is restored element by element instead of falling back — see
the counterexample. -/
theorem restore_malformed_fallback (s : String) (t : Nat)
    (hna : isArrOpt (parseJson s) = false) :
    initMessages (some s) t = [rawOfMessage (welcomeMessage t)] ∧
    (parseJson s = none → initConversation (some s) = Json.arr JArr.nil) := by
  constructor
  · simp only [initMessages]
    split
    · rfl
    · cases hp : parseJson s with
      | none => rfl
      | some j =>
        rw [hp] at hna
        cases j with
        | null => rfl
        | bool b => rfl
        | num lex => rfl
        | str v => rfl
        | arr items =>
          exact Bool.noConfusion
            ((rfl : isArrOpt (some (Json.arr items)) = true).symm.trans hna)
        | obj kvs => rfl
  · intro hp
    simp only [initConversation]
    split
    · rfl
    · rw [hp]

/-- Witness for the amended C7 theorem at a concrete unparsable string. -/
theorem restore_malformed_fallback_witness :
    isArrOpt (parseJson "not json") = false ∧
    (initMessages (some "not json") 3 = [rawOfMessage (welcomeMessage 3)] ∧
     (parseJson "not json" = none →
       initConversation (some "not json") = Json.arr JArr.nil)) :=
  ⟨by decide, restore_malformed_fallback "not json" 3 (by decide)⟩

/-- C8: round-trip of a session state through the two persisted entries:
serializing the message log (timestamps as ISO strings) and the exchange
log, then restoring through the initializers, preserves every message's id,
content, sender, optional isLoading flag, and their order and count;
restores every timestamp as a valid time value; and decodes an exchange
list equal to the original (for timestamps within the printable range,
year at most 9999). -/
theorem session_serialize_restore_roundtrip (msgs : List Message) (conv : List ChatMsg)
    (now : Nat) (hms : ∀ m ∈ msgs, m.timestamp ≤ isoMax) :
    (initMessages (some (serializeMessages msgs)) now).map
        (fun r => (r.id, r.content, r.sender, r.isLoading)) =
      msgs.map (fun m => (some m.id, some m.content, some (senderStr m.sender),
        m.isLoading)) ∧
    (∀ r ∈ initMessages (some (serializeMessages msgs)) now,
      r.timestamp.isValid = true) ∧
    convOfJson (initConversation (some (serializeConv conv))) = some conv := by
  rw [initMessages_serialized, initConversation_serialized, convOfJson_serialized]
  obtain ⟨h1, h2⟩ := restored_fields msgs hms
  exact ⟨h1, h2, rfl⟩

/-- Witness for the C8 round-trip theorem at a concrete session with escaped
characters in the contents. -/
theorem session_serialize_restore_roundtrip_witness :
    (∀ m ∈ sampleSession, m.timestamp ≤ isoMax) ∧
    ((initMessages (some (serializeMessages sampleSession)) 0).map
        (fun r => (r.id, r.content, r.sender, r.isLoading)) =
      sampleSession.map (fun m => (some m.id, some m.content,
        some (senderStr m.sender), m.isLoading)) ∧
    (∀ r ∈ initMessages (some (serializeMessages sampleSession)) 0,
      r.timestamp.isValid = true) ∧
    convOfJson (initConversation (some (serializeConv sampleConv))) =
      some sampleConv) :=
  ⟨by decide, session_serialize_restore_roundtrip sampleSession sampleConv 0 (by decide)⟩

end Skintel
